import Mathlib

/-!
Verification development for the MacroDashboard repository.

The repository maintains per-frequency tables of macroeconomic time series
(a "values" table and a parallel "dates" table of release timestamps),
built by `Fetch` (DataFetch-GitDeploy.py) from vintage observations, and
consumed by `GetData`, `GetLevel` and `GetDelta`
(TemplateUpdate-GitDeploy.py and generate_html.py).

Modelling conventions:
* pandas float cells are modelled by `PVal`: `nan` (missing / NaN / None),
  exact rationals `num q`, and the two IEEE infinities (which pandas float
  division can produce).  Arithmetic on `PVal` follows IEEE semantics for
  these cases; finite arithmetic is exact rational arithmetic.
* timestamps are day-granularity civil dates `Date` (year, month, day),
  with calendar arithmetic (month/week/year offsets) mirroring
  `pandas.DateOffset`.
* a DataFrame index is `PIdx`: either a datetime index or a plain integer
  index, matching the `isinstance(idx, pd.DatetimeIndex)` dispatch in
  `GetDelta`.
* `read_csv` of the two per-frequency CSV files is modelled by a function
  `files : String → Store` from the canonical frequency code to the loaded
  pair of tables; file-system errors are out of scope.
* pandas `Index.get_loc` is modelled for unique labels; on a duplicated
  label it is modelled as the failure `duplicateAxis` (pandas returns a
  slice there, which the surrounding scalar code cannot use).  All theorems
  about stores assume a duplicate-free index, which `Fetch` guarantees.
-/

/-- A pandas cell value: missing (NaN/None/NaT-like), a finite number
(modelled exactly as a rational), or an IEEE infinity. -/
inductive PVal where
  | nan : PVal
  | num (q : ℚ) : PVal
  | inf : PVal
  | neginf : PVal
deriving DecidableEq

/-- IEEE-style subtraction on `PVal` (NaN propagates; inf - inf = NaN). -/
def psub : PVal → PVal → PVal
  | .nan, _ => .nan
  | _, .nan => .nan
  | .num a, .num b => .num (a - b)
  | .num _, .inf => .neginf
  | .num _, .neginf => .inf
  | .inf, .inf => .nan
  | .inf, .neginf => .inf
  | .inf, .num _ => .inf
  | .neginf, .neginf => .nan
  | .neginf, .inf => .neginf
  | .neginf, .num _ => .neginf

/-- IEEE-style division on `PVal`: division of a nonzero finite number by
zero yields a signed infinity, 0/0 yields NaN, NaN propagates. -/
def pdiv : PVal → PVal → PVal
  | .nan, _ => .nan
  | _, .nan => .nan
  | .num a, .num b =>
      if b = 0 then (if a = 0 then .nan else if 0 < a then .inf else .neginf)
      else .num (a / b)
  | .num _, .inf => .num 0
  | .num _, .neginf => .num 0
  | .inf, .num b => if 0 ≤ b then .inf else .neginf
  | .neginf, .num b => if 0 ≤ b then .neginf else .inf
  | .inf, .inf => .nan
  | .inf, .neginf => .nan
  | .neginf, .inf => .nan
  | .neginf, .neginf => .nan

/-- One step of `Series.pct_change`: `x / prev - 1` (pandas computes
`obj / obj.shift(k) - 1`). -/
def pctHelper (x prev : PVal) : PVal := psub (pdiv x prev) (.num 1)

/-- `Series.shift(k)` on the raw cells: prepend `k` NaNs, drop the tail. -/
def shiftList (k : Nat) (l : List PVal) : List PVal :=
  List.replicate k .nan ++ l.take (l.length - k)

/-- `Series.pct_change(k, fill_method=None)`. -/
def pctChange (k : Nat) (l : List PVal) : List PVal :=
  List.zipWith pctHelper l (shiftList k l)

/-- `Series.diff(k)`. -/
def diffChange (k : Nat) (l : List PVal) : List PVal :=
  List.zipWith psub l (shiftList k l)

/-- `iloc[a:b]` positional slice of the raw cells. -/
def ilocSlice (l : List α) (a b : Nat) : List α := (l.take b).drop a

/-- `Series.tail(n)`: the trailing `n` entries. -/
def lastN (n : Nat) (l : List α) : List α := l.drop (l.length - n)

/-- Position of the last non-NaN entry (`Series.last_valid_index`, but as a
position; the label/`get_loc` round trip is modelled separately). -/
def lastValidPos : List PVal → Option Nat
  | [] => none
  | v :: t =>
    match lastValidPos t with
    | some p => some (p + 1)
    | none => if v = .nan then none else some 0

/-- A civil calendar date at day granularity (a pandas `Timestamp` as used
by this program, which only ever holds dates). -/
structure Date where
  year : Int
  month : Int
  day : Int
deriving DecidableEq

/-- Rata-die style day count (days since 1970-01-01) of a civil date,
following the standard civil-calendar conversion algorithm. -/
def daysFromCivil (y m d : Int) : Int :=
  let y2 := if m ≤ 2 then y - 1 else y
  let era := Int.ediv y2 400
  let yoe := y2 - era * 400
  let mp := Int.emod (m + 9) 12
  let doy := (153 * mp + 2) / 5 + d - 1
  let doe := yoe * 365 + yoe / 4 - yoe / 100 + doy
  era * 146097 + doe - 719468

/-- Inverse of `daysFromCivil`. -/
def civilFromDays (z0 : Int) : Date :=
  let z := z0 + 719468
  let era := Int.ediv z 146097
  let doe := z - era * 146097
  let yoe := (doe - doe / 1460 + doe / 36524 - doe / 146096) / 365
  let y := yoe + era * 400
  let doy := doe - (365 * yoe + yoe / 4 - yoe / 100)
  let mp := (5 * doy + 2) / 153
  let d := doy - (153 * mp + 2) / 5 + 1
  let m := if mp < 10 then mp + 3 else mp - 9
  ⟨if m ≤ 2 then y + 1 else y, m, d⟩

/-- Linear key of a date, used for ordering timestamps. -/
def dateKey (dt : Date) : Int := daysFromCivil dt.year dt.month dt.day

def isLeapYear (y : Int) : Bool :=
  Int.emod y 4 = 0 ∧ (Int.emod y 100 ≠ 0 ∨ Int.emod y 400 = 0)

def daysInMonth (y m : Int) : Int :=
  if m = 2 then (if isLeapYear y then 29 else 28)
  else if m = 4 ∨ m = 6 ∨ m = 9 ∨ m = 11 then 30
  else 31

/-- `pandas.DateOffset(months=n)`: move by calendar months, clamping the
day to the target month length. -/
def addMonths (n : Int) (dt : Date) : Date :=
  let t := dt.month - 1 + n
  let y := dt.year + Int.ediv t 12
  let m := Int.emod t 12 + 1
  ⟨y, m, min dt.day (daysInMonth y m)⟩

/-- `pandas.DateOffset(years=n)`: move by calendar years, clamping Feb 29. -/
def addYears (n : Int) (dt : Date) : Date :=
  ⟨dt.year + n, dt.month, min dt.day (daysInMonth (dt.year + n) dt.month)⟩

/-- Shift a date by whole days. -/
def addDays (n : Int) (dt : Date) : Date := civilFromDays (dateKey dt + n)

/-- The calendar offsets `GetDelta` uses (`pandas.DateOffset` with a
`months=`, `weeks=` or `years=` argument). -/
inductive DOffset where
  | months (n : Int)
  | weeks (n : Int)
  | years (n : Int)
deriving DecidableEq

def applyOffset : DOffset → Date → Date
  | .months n, dt => addMonths n dt
  | .weeks n, dt => addDays (7 * n) dt
  | .years n, dt => addYears n dt

/-- Errors raised by the program (Python exceptions, as one error type).
`unsupportedFrequency` and `tickerNotFound` carry the offending token; the
conversion error carries the formatted message text. -/
inductive Err where
  | unsupportedFrequency (token : String)
  | tickerNotFound (ticker : String)
  | colNotFound (ticker : String)
  | noValidIndex
  | indexOutOfRange
  | duplicateAxis
  | unsupportedConversion (msg : String)
deriving DecidableEq

deriving instance DecidableEq for Except

/-- ASCII upper-casing of one character (`str.upper` restricted to the
ASCII tokens this program compares against). -/
def charUpper (c : Char) : Char :=
  match c with
  | 'a' => 'A' | 'b' => 'B' | 'c' => 'C' | 'd' => 'D' | 'e' => 'E'
  | 'f' => 'F' | 'g' => 'G' | 'h' => 'H' | 'i' => 'I' | 'j' => 'J'
  | 'k' => 'K' | 'l' => 'L' | 'm' => 'M' | 'n' => 'N' | 'o' => 'O'
  | 'p' => 'P' | 'q' => 'Q' | 'r' => 'R' | 's' => 'S' | 't' => 'T'
  | 'u' => 'U' | 'v' => 'V' | 'w' => 'W' | 'x' => 'X' | 'y' => 'Y'
  | 'z' => 'Z'
  | other => other

def strUpper (s : String) : String := ⟨s.data.map charUpper⟩

def isWsChar (c : Char) : Bool := c = ' ' ∨ c = '\t' ∨ c = '\n' ∨ c = '\r'

/-- `str.strip()` (ASCII whitespace). -/
def strip (s : String) : String :=
  ⟨((s.data.dropWhile isWsChar).reverse.dropWhile isWsChar).reverse⟩

/-- `NormalizeFreq` from TemplateUpdate-GitDeploy.py lines 14-27 (the copy
in generate_html.py lines 24-36 is identical): upper-case the token and
look it up in the synonym dictionary, in insertion order.  The source
raises `ValueError(f"Unsupported frequency: {code}")`; the error carries
the offending token `code`. -/
def NormalizeFreq (code : String) : Except Err String :=
  let cu := strUpper code
  if cu = "MONTHLY" ∨ cu = "M" then .ok "M"
  else if cu = "QUARTERLY" ∨ cu = "Q" then .ok "Q"
  else if cu = "WEEKLY" ∨ cu = "W" then .ok "W"
  else if cu = "ANNUAL" ∨ cu = "A" ∨ cu = "Y" then .ok "A"
  else if cu = "DAILY" ∨ cu = "D" then .ok "D"
  else .error (.unsupportedFrequency code)

/-- A DataFrame index: either parsed timestamps or plain integers
(`read_csv(..., parse_dates=True)` yields one or the other, and `GetDelta`
dispatches on `isinstance(idx, pd.DatetimeIndex)`). -/
inductive PIdx where
  | dates (l : List Date)
  | ints (l : List Int)
deriving DecidableEq

def PIdx.length : PIdx → Nat
  | .dates l => l.length
  | .ints l => l.length

/-- The label at a position of the index. -/
def PIdx.labelAt : PIdx → Nat → Option (Date ⊕ Int)
  | .dates l, i => (l.get? i).map Sum.inl
  | .ints l, i => (l.get? i).map Sum.inr

/-- All positions of the given label (helper for `get_loc`). -/
def occIdx [DecidableEq α] (l : List α) (lbl : α) : List Nat :=
  (List.range l.length).filter (fun i => decide (l.get? i = some lbl))

/-- `index.get_loc(label)` where the label is the one at position `pos`
(as produced by `last_valid_index`): the unique position carrying that
label.  On a duplicated label pandas returns a slice, which the scalar
uses in this program cannot consume; we model that as `duplicateAxis`. -/
def listGetLoc [DecidableEq α] (l : List α) (pos : Nat) : Except Err Nat :=
  match l.get? pos with
  | none => .error .indexOutOfRange
  | some lbl =>
    match occIdx l lbl with
    | [i] => .ok i
    | [] => .error .indexOutOfRange
    | _ :: _ :: _ => .error .duplicateAxis

def PIdx.getLocAt : PIdx → Nat → Except Err Nat
  | .dates l, p => listGetLoc l p
  | .ints l, p => listGetLoc l p

/-- The in-memory image of one `{code}_Values.csv` / `{code}_Dates.csv`
pair: a shared index, the value columns, and the release-date columns. -/
structure Store where
  index : PIdx
  valueCols : List (String × List PVal)
  dateCols : List (String × List (Option Date))

/-- `df[ticker]`: the first column with the given name. -/
def lookupCol (cols : List (String × List α)) (t : String) : Option (List α) :=
  (cols.find? (fun e => decide (e.1 = t))).map Prod.snd

/-- A value column together with its index (a pandas `Series`). -/
structure PSeries where
  idx : PIdx
  vals : List PVal
deriving DecidableEq

/-- `GetData` from TemplateUpdate-GitDeploy.py lines 29-45: normalize the
frequency, load the two CSVs for it, check the ticker column, find the
last valid entry, and return the release date at that position together
with the whole value column.  `files` models the Raw Data directory,
mapping a canonical code to the loaded pair of tables. -/
def GetData (files : String → Store) (ticker freq : String) :
    Except Err (Option Date × PSeries) :=
  match NormalizeFreq freq with
  | .error e => .error e
  | .ok period_code =>
    let st := files period_code
    match lookupCol st.valueCols ticker with
    | none => .error (.tickerNotFound ticker)
    | some value_col =>
      match lastValidPos value_col with
      | none => .error .noValidIndex
      | some p =>
        match st.index.getLocAt p with
        | .error e => .error e
        | .ok last_pos =>
          match lookupCol st.dateCols ticker with
          | none => .error (.colNotFound ticker)
          | some date_col =>
            match date_col.get? last_pos with
            | none => .error .indexOutOfRange
            | some latest_date =>
              .ok (latest_date, ⟨st.index, value_col⟩)

/-- `GetLevel` from TemplateUpdate-GitDeploy.py lines 47-53: recompute the
last valid position and return the positional window
`value_col.iloc[max(0, last_pos - n_lags) : last_pos + 1]`.  Note there is
no padding here and no Daily special case: the window may be shorter than
`n_lags + 1`, and the caller (`WritePanel`) pads. -/
def GetLevel (files : String → Store) (ticker freq : String)
    (n_lags : Nat := 4) : Except Err (Option Date × List PVal) :=
  match GetData files ticker freq with
  | .error e => .error e
  | .ok (latest_date, vc) =>
    match lastValidPos vc.vals with
    | none => .error .noValidIndex
    | some p =>
      match vc.idx.getLocAt p with
      | .error e => .error e
      | .ok last_pos =>
        let start_pos := last_pos - n_lags
        .ok (latest_date, ilocSlice vc.vals start_pos (last_pos + 1))

/-- The front-padding performed by the consumers (`WritePanel` lines
236-238 of TemplateUpdate-GitDeploy.py, `build_section` lines 314-315 of
generate_html.py): pad on the older side with `None` up to the expected
length. -/
def padFront (expected : Nat) (vals : List (Option PVal)) : List (Option PVal) :=
  List.replicate (expected - vals.length) none ++ vals

/-- `_INT_SHIFT_TABLE` from TemplateUpdate-GitDeploy.py lines 67-80. -/
def INT_SHIFT_TABLE : List ((String × String) × Option Nat) :=
  [(("M", "A"), some 12),
   (("M", "Q"), some 3),
   (("Q", "A"), some 4),
   (("Q", "M"), none),
   (("W", "M"), none),
   (("D", "M"), none),
   (("M", "M"), some 1),
   (("Q", "Q"), some 1),
   (("A", "A"), some 1),
   (("W", "W"), some 1),
   (("D", "D"), some 1)]

/-- `_INT_SHIFT_TABLE.get(key, None)`. -/
def intShiftGet (key : String × String) : Option Nat :=
  (((INT_SHIFT_TABLE.find? (fun e => decide (e.1 = key))).map Prod.snd).getD none)

/-- The `DateOffset` selection chain of `GetDelta`
(TemplateUpdate-GitDeploy.py lines 107-120). -/
def dateOffsetFor (freq_code agg_code : String) : Except Err DOffset :=
  if freq_code = "M" ∧ agg_code = "A" then .ok (.months 12)
  else if freq_code = "M" ∧ agg_code = "Q" then .ok (.months 3)
  else if freq_code = "Q" ∧ agg_code = "A" then .ok (.months 12)
  else if freq_code = "Q" ∧ agg_code = "M" then
    .error (.unsupportedConversion
      "quarter-index to month-based aggregation when using DatetimeIndex")
  else if freq_code = "W" ∧ agg_code = "A" then .ok (.weeks 52)
  else if freq_code = "D" ∧ agg_code = "A" then .ok (.years 1)
  else .error (.unsupportedConversion (freq_code ++ " -> " ++ agg_code))

/-- `value_col.shift(freq=offset).reindex(value_col.index)`: move every
index label forward by the calendar offset, then align back on the
original labels; labels with no offset-predecessor become NaN.  pandas
refuses to reindex from a duplicated axis. -/
def shiftReindex (off : DOffset) (dl : List Date) (vals : List PVal) :
    Except Err (List PVal) :=
  let sIdx := dl.map (applyOffset off)
  if sIdx.Nodup then
    .ok (dl.map (fun t =>
      (((sIdx.zip vals).find? (fun p => decide (p.1 = t))).map Prod.snd).getD .nan))
  else .error .duplicateAxis

/-- `GetDelta` from TemplateUpdate-GitDeploy.py lines 55-156: normalize
both frequencies, fetch the column, and compute the delta window,
choosing between the same-frequency shift-1 path, the calendar-offset
path (datetime index), and the integer-row-offset fallback. -/
def GetDelta (files : String → Store) (ticker freq agg_freq : String)
    (n_lags : Nat := 4) (pct : Bool := true) :
    Except Err (Option Date × List PVal) :=
  match NormalizeFreq freq with
  | .error e => .error e
  | .ok freq_code =>
    match NormalizeFreq agg_freq with
    | .error e => .error e
    | .ok agg_code =>
      match GetData files ticker freq_code with
      | .error e => .error e
      | .ok (latest_date, vc) =>
        match lastValidPos vc.vals with
        | none => .error .noValidIndex
        | some p =>
          match vc.idx.getLocAt p with
          | .error e => .error e
          | .ok last_pos =>
            let start_pos := last_pos - n_lags
            if agg_code = freq_code then
              let result := if pct then pctChange 1 vc.vals else diffChange 1 vc.vals
              .ok (latest_date, ilocSlice result start_pos (last_pos + 1))
            else
              match vc.idx with
              | .dates dl =>
                match dateOffsetFor freq_code agg_code with
                | .error e => .error e
                | .ok offset =>
                  match shiftReindex offset dl vc.vals with
                  | .error e => .error e
                  | .ok prev =>
                    let result :=
                      if pct then
                        List.zipWith pdiv (List.zipWith psub vc.vals prev) prev
                      else List.zipWith psub vc.vals prev
                    .ok (latest_date, ilocSlice result start_pos (last_pos + 1))
              | .ints _ =>
                match intShiftGet (freq_code, agg_code) with
                | some shift =>
                  let result :=
                    if pct then pctChange shift vc.vals else diffChange shift vc.vals
                  .ok (latest_date, ilocSlice result start_pos (last_pos + 1))
                | none =>
                  if freq_code = "Q" ∧ agg_code = "A" then
                    let result :=
                      if pct then pctChange 4 vc.vals else diffChange 4 vc.vals
                    .ok (latest_date, ilocSlice result start_pos (last_pos + 1))
                  else if freq_code = "M" ∧ agg_code = "A" then
                    let result :=
                      if pct then pctChange 12 vc.vals else diffChange 12 vc.vals
                    .ok (latest_date, ilocSlice result start_pos (last_pos + 1))
                  else if freq_code = "M" ∧ agg_code = "Q" then
                    let result :=
                      if pct then pctChange 3 vc.vals else diffChange 3 vc.vals
                    .ok (latest_date, ilocSlice result start_pos (last_pos + 1))
                  else
                    .error (.unsupportedConversion
                      (freq_code ++ " -> " ++ agg_code ++ " (integer-indexed)"))

/-- `GetData` from generate_html.py lines 43-51: same lookups as the
TemplateUpdate variant, but also returns the label of the last valid
entry (`last_idx`, the current period) and the whole date column. -/
def GetDataHtml (files : String → Store) (ticker freq : String) :
    Except Err (Option Date × PSeries × (Date ⊕ Int) × List (Option Date)) :=
  match NormalizeFreq freq with
  | .error e => .error e
  | .ok period_code =>
    let st := files period_code
    match lookupCol st.valueCols ticker with
    | none => .error (.tickerNotFound ticker)
    | some value_col =>
      match lastValidPos value_col with
      | none => .error .noValidIndex
      | some p =>
        match st.index.labelAt p with
        | none => .error .indexOutOfRange
        | some last_idx =>
          match st.index.getLocAt p with
          | .error e => .error e
          | .ok last_pos =>
            match lookupCol st.dateCols ticker with
            | none => .error (.colNotFound ticker)
            | some date_col =>
              match date_col.get? last_pos with
              | none => .error .indexOutOfRange
              | some latest_date =>
                .ok (latest_date, ⟨st.index, value_col⟩, last_idx, date_col)

/-- `GetLevel` from generate_html.py lines 54-64.  Unlike the
TemplateUpdate variant this one has the Daily special case: drop the NaN
entries of `iloc[:last_pos+1]` and take the trailing `n_lags + 1`
non-missing values. -/
def GetLevelHtml (files : String → Store) (ticker freq : String)
    (n_lags : Nat := 4) :
    Except Err (Option Date × List PVal × (Date ⊕ Int) × List (Option Date)) :=
  match GetDataHtml files ticker freq with
  | .error e => .error e
  | .ok (latest_date, vc, current_period, date_col) =>
    match lastValidPos vc.vals with
    | none => .error .noValidIndex
    | some p =>
      match vc.idx.getLocAt p with
      | .error e => .error e
      | .ok last_pos =>
        match NormalizeFreq freq with
        | .error e => .error e
        | .ok period_code =>
          let latest_dates := lastN (n_lags + 1) date_col
          if period_code = "D" then
            let non_null :=
              (vc.vals.take (last_pos + 1)).filter (fun v => decide (v ≠ .nan))
            .ok (latest_date, lastN (n_lags + 1) non_null, current_period, latest_dates)
          else
            .ok (latest_date, ilocSlice vc.vals (last_pos - n_lags) (last_pos + 1),
                 current_period, latest_dates)

/-- A raw vintage observation as returned by
`fred.get_series_all_releases(ticker)`: the subject date of the value, the
release timestamp (`realtime_start`), and the value itself. -/
structure Obs where
  date : Date
  realtime_start : Date
  value : PVal
deriving DecidableEq

/-- Weekday with Monday = 0 (1970-01-01 was a Thursday). -/
def weekday (dt : Date) : Int := Int.emod (dateKey dt + 3) 7

/-- Start of the pandas `W` period (weeks ending Sunday, so the period
start is the Monday of the week containing the date). -/
def weekStart (dt : Date) : Date := addDays (-(weekday dt)) dt

/-- `dt.to_period(period_code).dt.to_timestamp()` (or `dt.floor("D")` for
Daily): the start of the canonical calendar interval containing the date. -/
def floorPeriod (pc : String) (dt : Date) : Date :=
  if pc = "D" then dt
  else if pc = "M" then ⟨dt.year, dt.month, 1⟩
  else if pc = "Q" then ⟨dt.year, 3 * ((dt.month - 1) / 3) + 1, 1⟩
  else if pc = "A" then ⟨dt.year, 1, 1⟩
  else weekStart dt

/-- Insert a date into an ascending duplicate-free list, keeping it
ascending and duplicate-free. -/
def insertD (x : Date) : List Date → List Date
  | [] => [x]
  | y :: t =>
    if x = y then y :: t
    else if dateKey x < dateKey y then x :: y :: t
    else y :: insertD x t

/-- Ascending duplicate-free list of the input dates (the sorted group
keys of `groupby`, and the sorted union index of `concat(..., sort=True)`). -/
def sortDedup (l : List Date) : List Date := l.foldr insertD []

/-- Distinct group keys, ascending (`groupby("Time")` group keys). -/
def groupKeys (rows : List (Date × β)) : List Date :=
  sortDedup (rows.map Prod.fst)

/-- Last non-null entry of a float column: pandas GroupBy "last" skips
NA entries, so this is the last non-NaN value of the group column, or
NaN when the whole group column is NaN. -/
def lastNonNullVal (l : List PVal) : PVal :=
  ((l.filter (fun v => decide (v ≠ .nan))).getLast?).getD .nan

/-- Last non-null entry of a datetime column: pandas GroupBy "last"
skips NaT, so this is the last non-missing date, or NaT (modelled as
`none`) when all entries are missing. -/
def lastNonNullDate (l : List (Option Date)) : Option Date :=
  ((l.filter (fun d => decide (d ≠ none))).getLast?).getD none

/-- The aggregated payload of one group under
`.agg({"value": "last", "realtime_start": "last"})`: pandas GroupBy
"last" takes the last NON-NULL entry of each column independently, so
the aggregated value and release timestamp can come from different rows
of the group when the value column contains NaNs. -/
def lastInGroup (rows : List (Date × (PVal × Option Date))) (k : Date) :
    PVal × Option Date :=
  let grp := (rows.filter (fun r => decide (r.1 = k))).map Prod.snd
  (lastNonNullVal (grp.map Prod.fst), lastNonNullDate (grp.map Prod.snd))

/-- `groupby("Time").agg({...: "last", ...: "last"})`: one row per
distinct key, ascending, with per-column last-non-null aggregation. -/
def groupLast (rows : List (Date × (PVal × Option Date))) :
    List (Date × (PVal × Option Date)) :=
  (groupKeys rows).map (fun k => (k, lastInGroup rows k))

/-- The per-observation rows of the vintage path of `Fetch`
(DataFetch-GitDeploy.py lines 111-123): key = period start of the subject
date, payload = (value, release timestamp). -/
def vintageRows (pc : String) (obs : List Obs) :
    List (Date × (PVal × Option Date)) :=
  obs.map (fun o => (floorPeriod pc o.date, (o.value, some o.realtime_start)))

/-- The per-observation rows of the `warning_list` path of `Fetch`
(DataFetch-GitDeploy.py lines 128-150): `fred.get_series` has no vintage
information, the observation date doubles as the release date. -/
def simpleRows (pc : String) (s : List (Date × PVal)) :
    List (Date × (PVal × Option Date)) :=
  s.map (fun r => (floorPeriod pc r.1, (r.2, some r.1)))

/-- The inline frequency-normalisation chain at the top of `Fetch`
(DataFetch-GitDeploy.py lines 90-102): strip, upper-case, compare. -/
def periodCodeOf (freq : String) : Except Err String :=
  let f := strUpper (strip freq)
  if f = "MONTHLY" ∨ f = "M" then .ok "M"
  else if f = "QUARTERLY" ∨ f = "Q" then .ok "Q"
  else if f = "WEEKLY" ∨ f = "W" then .ok "W"
  else if f = "ANNUAL" ∨ f = "A" ∨ f = "Y" then .ok "A"
  else if f = "DAILY" ∨ f = "D" then .ok "D"
  else .error (.unsupportedFrequency freq)

/-- The two aligned tables returned by `Fetch`: the values table and the
release-dates table, each as an index plus named columns. -/
structure FetchResult where
  valuesIndex : List Date
  values : List (String × List PVal)
  datesIndex : List Date
  dates : List (String × List (Option Date))
deriving DecidableEq

/-- `Fetch` from DataFetch-GitDeploy.py lines 86-161.  `fredAllReleases`
models `fred.get_series_all_releases` (`none` = the exception swallowed by
the `try`), `fredGetSeries` models `fred.get_series` for the
`warning_list` tickers.  Each fetched ticker is grouped by period with
last-in-group aggregation; the per-ticker frames are then concatenated
column-wise over the sorted union of their indexes (`sort=True`), missing
periods becoming NaN (values) / NaT (dates). -/
def Fetch (ticker_list : List String)
    (fredAllReleases : String → Option (List Obs))
    (fredGetSeries : String → Option (List (Date × PVal)))
    (freq : String) (warning_list : List String := []) :
    Except Err FetchResult :=
  match periodCodeOf freq with
  | .error e => .error e
  | .ok period_code =>
    let dfs1 := (ticker_list.filter (fun t => decide (t ∉ warning_list))).filterMap
      (fun t => (fredAllReleases t).map
        (fun obs => (t, groupLast (vintageRows period_code obs))))
    let dfs2 := warning_list.filterMap
      (fun t => (fredGetSeries t).map
        (fun s => (t, groupLast (simpleRows period_code s))))
    let values_dfs := (dfs1 ++ dfs2).map
      (fun e => (e.1, e.2.map (fun p => (p.1, p.2.1))))
    let dates_dfs := (dfs1 ++ dfs2).map
      (fun e => (e.1, e.2.map (fun p => (p.1, p.2.2))))
    if values_dfs.isEmpty then .ok ⟨[], [], [], []⟩
    else
      let vIdx := sortDedup ((values_dfs.map (fun e => e.2.map Prod.fst)).flatten)
      let dIdx := sortDedup ((dates_dfs.map (fun e => e.2.map Prod.fst)).flatten)
      .ok ⟨vIdx,
           values_dfs.map (fun e => (e.1, vIdx.map (fun k =>
             (((e.2.find? (fun p => decide (p.1 = k))).map Prod.snd).getD .nan)))),
           dIdx,
           dates_dfs.map (fun e => (e.1, dIdx.map (fun k =>
             (((e.2.find? (fun p => decide (p.1 = k))).map Prod.snd).getD none))))⟩

/-- The cell of the emitted values table for a ticker and a period
(observation helper over the output of `Fetch`). -/
def FetchResult.valueAt (r : FetchResult) (t : String) (k : Date) : Option PVal :=
  (lookupCol r.values t).bind (fun c =>
    ((r.valuesIndex.zip c).find? (fun p => decide (p.1 = k))).map Prod.snd)

/-- The cell of the emitted dates table for a ticker and a period. -/
def FetchResult.dateAt (r : FetchResult) (t : String) (k : Date) :
    Option (Option Date) :=
  (lookupCol r.dates t).bind (fun c =>
    ((r.datesIndex.zip c).find? (fun p => decide (p.1 = k))).map Prod.snd)

/-- Modelled from the spec: the observation a vintage-aware aligner is
required to select for a period group, namely the one with the maximal
`release_timestamp` ("Within a group, select the observation with the
latest release_timestamp as authoritative").  This definition follows the
spec's words and exists to be compared against what `Fetch` computes. -/
def latestByRelease (l : List Obs) : Option Obs :=
  l.foldl (fun acc o =>
    match acc with
    | none => some o
    | some b => if dateKey b.realtime_start ≤ dateKey o.realtime_start then some o else some b)
    none

/-! ### Helper lemmas about the list primitives -/

theorem ilocSlice_getElem? (l : List α) (a b i : Nat) :
    (ilocSlice l a b)[i]? = if a + i < b then l[a + i]? else none := by
  simp only [ilocSlice, List.getElem?_drop]
  by_cases h : a + i < b
  · rw [List.getElem?_take_of_lt h, if_pos h]
  · rw [if_neg h]
    refine List.getElem?_eq_none ?_
    have := List.length_take_le b l
    omega

theorem ilocSlice_length (l : List α) (a b : Nat) :
    (ilocSlice l a b).length = min b l.length - a := by
  simp [ilocSlice]

theorem ilocSlice_getLast? {l : List α} {a p : Nat} (ha : a ≤ p)
    (hp : p < l.length) : (ilocSlice l a (p + 1)).getLast? = l[p]? := by
  rw [List.getLast?_eq_getElem?, ilocSlice_length, ilocSlice_getElem?]
  have h1 : min (p + 1) l.length = p + 1 := by omega
  rw [h1]
  have h2 : a + (p + 1 - a - 1) = p := by omega
  rw [h2, if_pos (by omega)]

theorem shiftList_getElem?_lt {k j : Nat} (l : List PVal) (h : j < k) :
    (shiftList k l)[j]? = some .nan := by
  simp only [shiftList]
  rw [List.getElem?_append, if_pos (by simpa using h)]
  exact List.getElem?_replicate_of_lt h

theorem shiftList_getElem?_ge {k j : Nat} (l : List PVal) (hk : k ≤ j)
    (hj : j < l.length) : (shiftList k l)[j]? = l[j - k]? := by
  simp only [shiftList]
  rw [List.getElem?_append_right (by simpa using hk)]
  simp only [List.length_replicate]
  exact List.getElem?_take_of_lt (by omega)

theorem pctChange_getElem?_lt {k j : Nat} {l : List PVal} {x : PVal}
    (hx : l[j]? = some x) (h : j < k) :
    (pctChange k l)[j]? = some (pctHelper x .nan) := by
  simp [pctChange, List.getElem?_zipWith', hx, shiftList_getElem?_lt l h]

theorem pctChange_getElem?_ge {k j : Nat} {l : List PVal} {x p : PVal}
    (hx : l[j]? = some x) (hp : l[j - k]? = some p) (h : k ≤ j) :
    (pctChange k l)[j]? = some (pctHelper x p) := by
  have hj : j < l.length := (List.getElem?_eq_some_iff.mp hx).1
  simp [pctChange, List.getElem?_zipWith', hx, shiftList_getElem?_ge l h hj, hp]

theorem diffChange_getElem?_lt {k j : Nat} {l : List PVal} {x : PVal}
    (hx : l[j]? = some x) (h : j < k) :
    (diffChange k l)[j]? = some (psub x .nan) := by
  simp [diffChange, List.getElem?_zipWith', hx, shiftList_getElem?_lt l h]

theorem diffChange_getElem?_ge {k j : Nat} {l : List PVal} {x p : PVal}
    (hx : l[j]? = some x) (hp : l[j - k]? = some p) (h : k ≤ j) :
    (diffChange k l)[j]? = some (psub x p) := by
  have hj : j < l.length := (List.getElem?_eq_some_iff.mp hx).1
  simp [diffChange, List.getElem?_zipWith', hx, shiftList_getElem?_ge l h hj, hp]

theorem psub_nan_right (x : PVal) : psub x .nan = .nan := by cases x <;> rfl

theorem pctHelper_nan_right (x : PVal) : pctHelper x .nan = .nan := by
  cases x <;> rfl

theorem pctHelper_zero_right (x : PVal) :
    pctHelper x (.num 0) =
      match x with
      | .nan => .nan
      | .num a => if a = 0 then .nan else if 0 < a then .inf else .neginf
      | .inf => .inf
      | .neginf => .neginf := by
  cases x with
  | nan => rfl
  | num a =>
    by_cases h : a = 0
    · simp [pctHelper, pdiv, psub, h]
    · by_cases h2 : 0 < a <;> simp [pctHelper, pdiv, psub, h, h2]
  | inf => simp [pctHelper, pdiv, psub]
  | neginf => simp [pctHelper, pdiv, psub]

/-- On NaN-or-finite cells, `pct_change` (computed as `x / prev - 1`)
agrees with the spec formula `(x - prev) / prev`. -/
theorem pctHelper_eq_ratio {x p : PVal}
    (hx : x = .nan ∨ ∃ a, x = .num a) (hp : p = .nan ∨ ∃ b, p = .num b) :
    pctHelper x p = pdiv (psub x p) p := by
  rcases hx with h | ⟨a, h⟩ <;> subst h
  · rcases hp with h | ⟨b, h⟩ <;> subst h <;> rfl
  · rcases hp with h | ⟨b, h⟩ <;> subst h
    · rfl
    · by_cases hb : b = 0
      · subst hb
        by_cases ha : a = 0
        · simp [pctHelper, pdiv, psub, ha]
        · by_cases hpos : 0 < a <;>
            simp [pctHelper, pdiv, psub, ha, hpos, sub_eq_zero]
      · have : a / b - 1 = (a - b) / b := by field_simp
        simp [pctHelper, pdiv, psub, hb, this]

theorem lastValidPos_lt {l : List PVal} {p : Nat}
    (h : lastValidPos l = some p) : p < l.length := by
  induction l generalizing p with
  | nil => simp [lastValidPos] at h
  | cons v t ih =>
    rw [lastValidPos] at h
    cases ht : lastValidPos t with
    | some q =>
      rw [ht] at h
      injection h with h
      subst h
      simpa using ih ht
    | none =>
      rw [ht] at h
      by_cases hv : v = .nan
      · simp [hv] at h
      · simp only [hv, if_false] at h
        injection h with h
        subst h
        simp

theorem lastValidPos_valid {l : List PVal} {p : Nat}
    (h : lastValidPos l = some p) : ∃ x, l[p]? = some x ∧ x ≠ .nan := by
  induction l generalizing p with
  | nil => simp [lastValidPos] at h
  | cons v t ih =>
    rw [lastValidPos] at h
    cases ht : lastValidPos t with
    | some q =>
      rw [ht] at h
      injection h with h
      subst h
      obtain ⟨x, hx, hxn⟩ := ih ht
      exact ⟨x, by simpa using hx, hxn⟩
    | none =>
      rw [ht] at h
      by_cases hv : v = .nan
      · simp [hv] at h
      · simp only [hv, if_false] at h
        injection h with h
        subst h
        exact ⟨v, by simp, hv⟩

theorem lastValidPos_none_of_all_nan {l : List PVal}
    (h : ∀ v ∈ l, v = .nan) : lastValidPos l = none := by
  induction l with
  | nil => rfl
  | cons v t ih =>
    rw [lastValidPos, ih (fun x hx => h x (List.mem_cons_of_mem v hx)),
        if_pos (h v (List.mem_cons_self v t))]

theorem find?_zip_of_nodup [DecidableEq α] {l : List α} {vs : List β}
    {k : Nat} {t : α} {v : β} (hnd : l.Nodup) (hl : l[k]? = some t)
    (hv : vs[k]? = some v) :
    ((l.zip vs).find? (fun p => decide (p.1 = t))).map Prod.snd = some v := by
  induction l generalizing vs k with
  | nil => simp at hl
  | cons a l ih =>
    cases vs with
    | nil => simp at hv
    | cons b vs =>
      cases k with
      | zero =>
        simp only [List.getElem?_cons_zero] at hl hv
        injection hl with hl
        injection hv with hv
        subst hl
        subst hv
        simp [List.find?]
      | succ k =>
        simp only [List.getElem?_cons_succ] at hl hv
        have hat : ¬(a = t) := by
          intro he
          exact (List.nodup_cons.mp hnd).1 (he ▸ List.getElem?_mem hl)
        rw [List.zip_cons_cons, List.find?_cons_of_neg _ (by simpa using hat)]
        exact ih (List.nodup_cons.mp hnd).2 hl hv

theorem find?_zip_map_self [DecidableEq α] {l : List α} {k : α} (g : α → β)
    (hk : k ∈ l) :
    ((l.zip (l.map g)).find? (fun p => decide (p.1 = k))).map Prod.snd
      = some (g k) := by
  induction l with
  | nil => simp at hk
  | cons a l ih =>
    by_cases h : a = k
    · subst h
      simp [List.find?]
    · rw [List.map_cons, List.zip_cons_cons,
        List.find?_cons_of_neg _ (by simpa using h)]
      exact ih (by rcases List.mem_cons.mp hk with h2 | h2
                   · exact absurd h2.symm h
                   · exact h2)

theorem find?_map_key [DecidableEq α] {keys : List α} {k : α} (f : α → β)
    (hk : k ∈ keys) :
    ((keys.map (fun x => (x, f x))).find? (fun p => decide (p.1 = k))).map
      Prod.snd = some (f k) := by
  induction keys with
  | nil => simp at hk
  | cons a l ih =>
    by_cases h : a = k
    · subst h
      simp [List.find?]
    · rw [List.map_cons, List.find?_cons_of_neg _ (by simpa using h)]
      exact ih (by rcases List.mem_cons.mp hk with h2 | h2
                   · exact absurd h2.symm h
                   · exact h2)

theorem mem_insertD {a x : Date} {l : List Date} :
    a ∈ insertD x l ↔ a = x ∨ a ∈ l := by
  induction l with
  | nil => simp [insertD]
  | cons y t ih =>
    rw [insertD]
    by_cases h1 : x = y
    · rw [if_pos h1]
      subst h1
      simp only [List.mem_cons]
      tauto
    · rw [if_neg h1]
      by_cases h2 : dateKey x < dateKey y
      · rw [if_pos h2]
        simp only [List.mem_cons]
      · rw [if_neg h2]
        simp only [List.mem_cons, ih]
        tauto

theorem mem_sortDedup {a : Date} {l : List Date} :
    a ∈ sortDedup l ↔ a ∈ l := by
  induction l with
  | nil => simp [sortDedup]
  | cons x t ih =>
    show a ∈ insertD x (sortDedup t) ↔ _
    rw [mem_insertD, ih]
    simp

theorem getLast?_rel_of_pairwise {r : α → α → Prop} {l : List α} {x : α}
    (hp : l.Pairwise r) (hl : l.getLast? = some x) :
    ∀ a ∈ l, a = x ∨ r a x := by
  induction l with
  | nil => simp at hl
  | cons b t ih =>
    cases t with
    | nil =>
      simp only [List.getLast?_singleton] at hl
      injection hl with hl
      intro a ha
      simp only [List.mem_singleton] at ha
      exact Or.inl (ha.trans hl)
    | cons c t2 =>
      rw [List.getLast?_cons_cons] at hl
      intro a ha
      rcases List.mem_cons.mp ha with h | h
      · subst h
        exact Or.inr ((List.pairwise_cons.mp hp).1 x
          (List.mem_of_getLast?_eq_some hl))
      · exact ih (List.pairwise_cons.mp hp).2 hl a h

theorem find?_fst_filterMap [DecidableEq α] {tl : List α}
    {f : α → Option (α × β)} (hf : ∀ x y, f x = some y → y.1 = x)
    {t : α} {v : α × β} (hnd : tl.Nodup) (ht : t ∈ tl) (hv : f t = some v) :
    (tl.filterMap f).find? (fun e => decide (e.1 = t)) = some v := by
  induction tl with
  | nil => simp at ht
  | cons a l ih =>
    rw [List.filterMap_cons]
    rcases List.mem_cons.mp ht with h | h
    · subst h
      rw [hv]
      simp [List.find?, hf _ _ hv]
    · have hat : ¬(a = t) := fun he => (List.nodup_cons.mp hnd).1 (he ▸ h)
      cases hfa : f a with
      | none => exact ih (List.nodup_cons.mp hnd).2 h
      | some w =>
        rw [List.find?_cons_of_neg _
          (by simp only [decide_eq_true_eq, hf _ _ hfa]; exact hat)]
        exact ih (List.nodup_cons.mp hnd).2 h

theorem find?_map_fst [DecidableEq α] {l : List (α × β)} (g : α × β → γ)
    (t : α) :
    (l.map (fun e => (e.1, g e))).find? (fun e => decide (e.1 = t)) =
      (l.find? (fun e => decide (e.1 = t))).map (fun e => (e.1, g e)) := by
  induction l with
  | nil => rfl
  | cons a l ih =>
    by_cases h : a.1 = t <;> simp [List.find?, h, ih]

theorem pval_shape {v : PVal} (h : v ≠ .inf ∧ v ≠ .neginf) :
    v = .nan ∨ ∃ a, v = .num a := by
  cases v with
  | nan => exact Or.inl rfl
  | num a => exact Or.inr ⟨a, rfl⟩
  | inf => exact absurd rfl h.1
  | neginf => exact absurd rfl h.2

/-! ### Concrete example stores used by witnesses and counterexamples -/

/-- Three months of values 100, 110, 121 (the spec's worked example). -/
def stM3 : Store :=
  ⟨.dates [⟨2020, 1, 1⟩, ⟨2020, 2, 1⟩, ⟨2020, 3, 1⟩],
   [("T", [.num 100, .num 110, .num 121])],
   [("T", [some ⟨2020, 1, 15⟩, some ⟨2020, 2, 15⟩, some ⟨2020, 3, 15⟩])]⟩

/-- A single-period store (short history). -/
def stShort : Store :=
  ⟨.dates [⟨2020, 1, 1⟩], [("T", [.num 5])], [("T", [some ⟨2020, 1, 10⟩])]⟩

/-- A store whose only column is entirely missing. -/
def stAllNan : Store :=
  ⟨.dates [⟨2020, 1, 1⟩], [("T", [.nan])], [("T", [none])]⟩

/-- Monthly store containing a zero and a missing predecessor. -/
def stZero : Store :=
  ⟨.dates [⟨2020, 1, 1⟩, ⟨2020, 2, 1⟩, ⟨2020, 3, 1⟩, ⟨2020, 4, 1⟩],
   [("T", [.num 0, .num 100, .nan, .num 7])],
   [("T", [some ⟨2020, 1, 1⟩, some ⟨2020, 2, 1⟩, some ⟨2020, 3, 1⟩,
           some ⟨2020, 4, 1⟩])]⟩

/-- Two monthly periods twelve calendar months apart, the earlier value
zero (calendar-offset percent-mode edge case). -/
def stZeroA : Store :=
  ⟨.dates [⟨2020, 1, 1⟩, ⟨2021, 1, 1⟩],
   [("T", [.num 0, .num 100])],
   [("T", [some ⟨2020, 2, 1⟩, some ⟨2021, 2, 1⟩])]⟩

/-- Integer-indexed store whose quarter-offset predecessor is zero
(integer-fallback percent-mode edge case). -/
def stIntZero : Store :=
  ⟨.ints [0, 1, 2, 3],
   [("T", [.num 0, .num 2, .num 5, .num 7])],
   [("T", [none, none, none, none])]⟩

/-- Daily store with an interior missing value (a trading-day gap). -/
def stDgap : Store :=
  ⟨.dates [⟨2020, 1, 1⟩, ⟨2020, 1, 2⟩, ⟨2020, 1, 3⟩, ⟨2020, 1, 6⟩,
           ⟨2020, 1, 7⟩],
   [("T", [.num 1, .num 2, .nan, .num 4, .num 5])],
   [("T", [some ⟨2020, 1, 1⟩, some ⟨2020, 1, 2⟩, none, some ⟨2020, 1, 6⟩,
           some ⟨2020, 1, 7⟩])]⟩

/-- Thirteen consecutive monthly periods with values 100, 101, ..., 112. -/
def dl13 : List Date :=
  [⟨2020, 1, 1⟩, ⟨2020, 2, 1⟩, ⟨2020, 3, 1⟩, ⟨2020, 4, 1⟩, ⟨2020, 5, 1⟩,
   ⟨2020, 6, 1⟩, ⟨2020, 7, 1⟩, ⟨2020, 8, 1⟩, ⟨2020, 9, 1⟩, ⟨2020, 10, 1⟩,
   ⟨2020, 11, 1⟩, ⟨2020, 12, 1⟩, ⟨2021, 1, 1⟩]

def vals13 : List PVal :=
  [.num 100, .num 101, .num 102, .num 103, .num 104, .num 105, .num 106,
   .num 107, .num 108, .num 109, .num 110, .num 111, .num 112]

def st13 : Store :=
  ⟨.dates dl13, [("T", vals13)],
   [("T", [some ⟨2020, 1, 10⟩, some ⟨2020, 2, 10⟩, some ⟨2020, 3, 10⟩,
           some ⟨2020, 4, 10⟩, some ⟨2020, 5, 10⟩, some ⟨2020, 6, 10⟩,
           some ⟨2020, 7, 10⟩, some ⟨2020, 8, 10⟩, some ⟨2020, 9, 10⟩,
           some ⟨2020, 10, 10⟩, some ⟨2020, 11, 10⟩, some ⟨2020, 12, 10⟩,
           some ⟨2021, 1, 10⟩])]⟩

/-- Quarterly store with an integer index. -/
def stQints : Store :=
  ⟨.ints [0, 1], [("T", [.num 1, .num 2])], [("T", [none, none])]⟩

/-! ### C7: the frequency normalizer -/

/-- C7 (counterexample): the claim lists "Year" as an accepted synonym of
Annual, but `NormalizeFreq` only accepts ANNUAL / A / Y: the token "Year"
is rejected with `UnsupportedFrequency`, while "Annual" is accepted. -/
theorem c7_normalizefreq_counterexample :
    NormalizeFreq "Year" = .error (.unsupportedFrequency "Year") ∧
    NormalizeFreq "Annual" = .ok "A" := by
  constructor
  · decide
  · decide

/-- C7 (amended): `NormalizeFreq` is case-insensitive and maps each of
MONTHLY/M to M, QUARTERLY/Q to Q, WEEKLY/W to W, ANNUAL/A/Y (but not
YEAR) to A, and DAILY/D to D; every other token fails with
`UnsupportedFrequency` carrying the offending token (the source message
is "Unsupported frequency: {code}"). -/
theorem c7_normalizefreq_amended (s : String) :
    ((strUpper s = "MONTHLY" ∨ strUpper s = "M") → NormalizeFreq s = .ok "M") ∧
    ((strUpper s = "QUARTERLY" ∨ strUpper s = "Q") → NormalizeFreq s = .ok "Q") ∧
    ((strUpper s = "WEEKLY" ∨ strUpper s = "W") → NormalizeFreq s = .ok "W") ∧
    ((strUpper s = "ANNUAL" ∨ strUpper s = "A" ∨ strUpper s = "Y") →
      NormalizeFreq s = .ok "A") ∧
    ((strUpper s = "DAILY" ∨ strUpper s = "D") → NormalizeFreq s = .ok "D") ∧
    (strUpper s ∉ (["MONTHLY", "M", "QUARTERLY", "Q", "WEEKLY", "W",
        "ANNUAL", "A", "Y", "DAILY", "D"] : List String) →
      NormalizeFreq s = .error (.unsupportedFrequency s)) := by
  refine ⟨?_, ?_, ?_, ?_, ?_, ?_⟩
  · intro h
    rcases h with h | h <;> simp [NormalizeFreq, h]
  · intro h
    rcases h with h | h <;> simp [NormalizeFreq, h]
  · intro h
    rcases h with h | h <;> simp [NormalizeFreq, h]
  · intro h
    rcases h with h | h | h <;> simp [NormalizeFreq, h]
  · intro h
    rcases h with h | h <;> simp [NormalizeFreq, h]
  · intro h
    simp only [List.mem_cons, List.not_mem_nil, or_false, not_or] at h
    obtain ⟨h1, h2, h3, h4, h5, h6, h7, h8, h9, h10, h11⟩ := h
    simp [NormalizeFreq, h1, h2, h3, h4, h5, h6, h7, h8, h9, h10, h11]

/-- C7 witness: the amended theorem applied to the mixed-case token
"aNnUaL". -/
theorem c7_normalizefreq_witness :
    (strUpper "aNnUaL" = "ANNUAL" ∨ strUpper "aNnUaL" = "A" ∨
      strUpper "aNnUaL" = "Y") ∧
    NormalizeFreq "aNnUaL" = .ok "A" :=
  ⟨Or.inl (by decide),
   (c7_normalizefreq_amended "aNnUaL").2.2.2.1 (Or.inl (by decide))⟩

/-! ### C2: the Level/Lag Extractor window -/

/-- C2 (counterexample): with a single stored period and lag depth 4,
`GetLevel` (TemplateUpdate-GitDeploy.py) returns a one-entry window, not
`lagDepth + 1 = 5` entries, and performs no left-padding itself. -/
theorem c2_getlevel_counterexample :
    GetLevel (fun _ => stShort) "T" "M" 4 =
      .ok (some ⟨2020, 1, 10⟩, [.num 5]) ∧
    [PVal.num 5].length ≠ 4 + 1 := by
  constructor
  · decide
  · decide

/-- C2 (amended): `GetLevel` returns the positional window
`iloc[max(0, p - n) : p + 1]` anchored at the position `p` of the last
valid value: `min (n+1) (p+1)` entries, oldest-to-newest, ending with the
most recent non-missing value, and it never fails for short history; the
padding to exactly `n + 1` entries with missing markers is performed by
the consumers (`WritePanel` / `build_section`), modelled by `padFront`. -/
theorem c2_getlevel_window (files : String → Store) (ticker freq : String)
    (n_lags : Nat) (ld : Option Date) (vc : PSeries) (p : Nat)
    (hgd : GetData files ticker freq = .ok (ld, vc))
    (hlp : lastValidPos vc.vals = some p)
    (hloc : vc.idx.getLocAt p = .ok p) :
    GetLevel files ticker freq n_lags =
      .ok (ld, ilocSlice vc.vals (p - n_lags) (p + 1)) ∧
    (ilocSlice vc.vals (p - n_lags) (p + 1)).length = min (n_lags + 1) (p + 1) ∧
    (ilocSlice vc.vals (p - n_lags) (p + 1)).getLast? = vc.vals[p]? ∧
    (∃ x, vc.vals[p]? = some x ∧ x ≠ .nan) ∧
    (padFront (n_lags + 1)
      ((ilocSlice vc.vals (p - n_lags) (p + 1)).map some)).length = n_lags + 1 := by
  have hplen := lastValidPos_lt hlp
  have hsl := ilocSlice_length vc.vals (p - n_lags) (p + 1)
  refine ⟨?_, ?_, ?_, lastValidPos_valid hlp, ?_⟩
  · simp only [GetLevel, hgd, hlp, hloc]
  · rw [hsl]; omega
  · exact ilocSlice_getLast? (by omega) hplen
  · simp only [padFront, List.length_append, List.length_replicate,
      List.length_map]
    rw [hsl]
    omega

/-- C2 witness: the amended theorem applied to the one-period store. -/
theorem c2_getlevel_window_witness :
    GetLevel (fun _ => stShort) "T" "M" 4 =
      .ok (some ⟨2020, 1, 10⟩, ilocSlice [PVal.num 5] (0 - 4) (0 + 1)) ∧
    (ilocSlice [PVal.num 5] (0 - 4) (0 + 1)).length = min (4 + 1) (0 + 1) ∧
    (ilocSlice [PVal.num 5] (0 - 4) (0 + 1)).getLast? = [PVal.num 5][0]? ∧
    (∃ x, [PVal.num 5][0]? = some x ∧ x ≠ .nan) ∧
    (padFront (4 + 1)
      ((ilocSlice [PVal.num 5] (0 - 4) (0 + 1)).map some)).length = 4 + 1 :=
  c2_getlevel_window (fun _ => stShort) "T" "M" 4 (some ⟨2020, 1, 10⟩)
    ⟨.dates [⟨2020, 1, 1⟩], [.num 5]⟩ 0 (by decide) (by decide) (by decide)

/-! ### C4: Quarterly-native to Monthly-aggregation always fails -/

/-- C4: whenever the underlying series is readable (the `GetData` lookups
succeed), `GetDelta` with native frequency Q and aggregation frequency M
fails with an unsupported-conversion error, for every lag depth and
percent flag, on a calendar index (the `DateOffset` chain raises) and on
a plain integer index alike (`_INT_SHIFT_TABLE` maps (Q, M) to `None` and
the fallback chain raises). -/
theorem c4_q_to_m_unsupported (files : String → Store) (ticker : String)
    (n_lags : Nat) (pct : Bool) (ld : Option Date) (vc : PSeries)
    (p last_pos : Nat)
    (hgd : GetData files ticker "Q" = .ok (ld, vc))
    (hlp : lastValidPos vc.vals = some p)
    (hloc : vc.idx.getLocAt p = .ok last_pos) :
    ∃ msg, GetDelta files ticker "Q" "M" n_lags pct =
      .error (.unsupportedConversion msg) := by
  have hf : NormalizeFreq "Q" = .ok "Q" := by decide
  have ha : NormalizeFreq "M" = .ok "M" := by decide
  simp only [GetDelta, hf, ha, hgd, hlp, hloc]
  rw [if_neg (by decide)]
  cases hidx : vc.idx with
  | dates dl =>
    have hdo : dateOffsetFor "Q" "M" = .error (.unsupportedConversion
        "quarter-index to month-based aggregation when using DatetimeIndex") := by
      decide
    rw [hdo]
    exact ⟨_, rfl⟩
  | ints il =>
    have hsh : intShiftGet ("Q", "M") = none := by decide
    rw [hsh]
    rw [if_neg (by decide), if_neg (by decide), if_neg (by decide)]
    exact ⟨_, rfl⟩

/-- C4 witness: the theorem applied to a calendar-indexed store and to an
integer-indexed store. -/
theorem c4_q_to_m_unsupported_witness :
    (∃ msg, GetDelta (fun _ => stM3) "T" "Q" "M" 4 true =
      .error (.unsupportedConversion msg)) ∧
    (∃ msg, GetDelta (fun _ => stQints) "T" "Q" "M" 2 false =
      .error (.unsupportedConversion msg)) :=
  ⟨c4_q_to_m_unsupported (fun _ => stM3) "T" 4 true (some ⟨2020, 3, 15⟩)
      ⟨.dates [⟨2020, 1, 1⟩, ⟨2020, 2, 1⟩, ⟨2020, 3, 1⟩],
       [.num 100, .num 110, .num 121]⟩ 2 2
      (by decide) (by decide) (by decide),
   c4_q_to_m_unsupported (fun _ => stQints) "T" 2 false none
      ⟨.ints [0, 1], [.num 1, .num 2]⟩ 1 1
      (by decide) (by decide) (by decide)⟩

/-! ### C5: same-frequency delta is a one-period shift -/

/-- C5: when both frequencies normalize to the same code, `GetDelta`
computes `delta[t] = value[t] - value[t-1]` in level mode and
`(value[t] - value[t-1]) / value[t-1]` in percent mode (on NaN-or-finite
cells), positionally shifted by one. -/
theorem c5_same_freq_delta (files : String → Store)
    (ticker freq agg_freq fc : String) (n_lags : Nat) (pct : Bool)
    (ld : Option Date) (vc : PSeries) (p j : Nat) (vj vjm : PVal)
    (hf : NormalizeFreq freq = .ok fc) (ha : NormalizeFreq agg_freq = .ok fc)
    (hgd : GetData files ticker fc = .ok (ld, vc))
    (hlp : lastValidPos vc.vals = some p)
    (hloc : vc.idx.getLocAt p = .ok p)
    (hfin : ∀ v ∈ vc.vals, v ≠ .inf ∧ v ≠ .neginf)
    (hj1 : 1 ≤ j) (hle : j ≤ p) (hstart : p - n_lags ≤ j)
    (hvj : vc.vals[j]? = some vj) (hvm : vc.vals[j - 1]? = some vjm) :
    ∃ res, GetDelta files ticker freq agg_freq n_lags pct = .ok (ld, res) ∧
      res[j - (p - n_lags)]? =
        some (if pct then pdiv (psub vj vjm) vjm else psub vj vjm) := by
  simp only [GetDelta, hf, ha, hgd, hlp, hloc]
  rw [if_pos trivial]
  refine ⟨_, rfl, ?_⟩
  rw [ilocSlice_getElem?]
  have harith : p - n_lags + (j - (p - n_lags)) = j := by omega
  rw [harith, if_pos (by omega)]
  cases pct with
  | true =>
    rw [if_pos rfl, pctChange_getElem?_ge hvj hvm hj1, if_pos rfl]
    congr 1
    exact pctHelper_eq_ratio (pval_shape (hfin vj (List.getElem?_mem hvj)))
      (pval_shape (hfin vjm (List.getElem?_mem hvm)))
  | false =>
    rw [if_neg (by simp), if_neg (by simp), diffChange_getElem?_ge hvj hvm hj1]

/-- C5 witness: the series [100, 110, 121] at Monthly/Monthly in percent
mode: the theorem applied at positions 1 and 2, plus the full returned
window `[missing, 0.10, 0.10]` computed outright. -/
theorem c5_same_freq_delta_witness :
    (∃ res, GetDelta (fun _ => stM3) "T" "M" "M" 4 true =
        .ok (some ⟨2020, 3, 15⟩, res) ∧
      res[1 - (2 - 4)]? = some (if true then
        pdiv (psub (.num 110) (.num 100)) (.num 100)
        else psub (.num 110) (.num 100))) ∧
    (∃ res, GetDelta (fun _ => stM3) "T" "M" "M" 4 true =
        .ok (some ⟨2020, 3, 15⟩, res) ∧
      res[2 - (2 - 4)]? = some (if true then
        pdiv (psub (.num 121) (.num 110)) (.num 110)
        else psub (.num 121) (.num 110))) ∧
    GetDelta (fun _ => stM3) "T" "M" "M" 4 true =
      .ok (some ⟨2020, 3, 15⟩,
        [.nan, .num (1 / 10), .num (1 / 10)]) := by
  have hconc : GetDelta (fun _ => stM3) "T" "M" "M" 4 true =
      .ok (some ⟨2020, 3, 15⟩,
        [.nan, pctHelper (.num 110) (.num 100),
         pctHelper (.num 121) (.num 110)]) := rfl
  refine ⟨?_, ?_, by rw [hconc]; norm_num [pctHelper, pdiv, psub]⟩
  · exact c5_same_freq_delta (fun _ => stM3) "T" "M" "M" "M" 4 true
      (some ⟨2020, 3, 15⟩)
      ⟨.dates [⟨2020, 1, 1⟩, ⟨2020, 2, 1⟩, ⟨2020, 3, 1⟩],
       [.num 100, .num 110, .num 121]⟩ 2 1 (.num 110) (.num 100)
      (by decide) (by decide) (by decide) (by decide) (by decide) (by decide)
      (by decide) (by decide) (by decide) (by decide) (by decide)
  · exact c5_same_freq_delta (fun _ => stM3) "T" "M" "M" "M" 4 true
      (some ⟨2020, 3, 15⟩)
      ⟨.dates [⟨2020, 1, 1⟩, ⟨2020, 2, 1⟩, ⟨2020, 3, 1⟩],
       [.num 100, .num 110, .num 121]⟩ 2 2 (.num 121) (.num 110)
      (by decide) (by decide) (by decide) (by decide) (by decide) (by decide)
      (by decide) (by decide) (by decide) (by decide) (by decide)

/-! ### C3: zero or missing predecessor in percent mode -/

/-- C3 (counterexample): for the monthly series [0, 100, missing, 7] in
percent mode, the delta whose offset predecessor is the zero value is
`inf`, not the missing marker: pandas float division of a nonzero
numerator by zero produces a signed infinity, so the claim's "yields
missing, never inf" fails (missing predecessors do yield missing). -/
theorem c3_counterexample :
    GetDelta (fun _ => stZero) "T" "M" "M" 4 true =
      .ok (some ⟨2020, 4, 1⟩, [.nan, .inf, .nan, .nan]) ∧
    PVal.inf ≠ PVal.nan := by
  constructor
  · decide
  · decide

theorem pctHelper_zero_shape (x : PVal) :
    pctHelper x (.num 0) = .nan ∨ pctHelper x (.num 0) = .inf ∨
    pctHelper x (.num 0) = .neginf := by
  rw [pctHelper_zero_right]
  cases x with
  | nan => exact Or.inl rfl
  | num a =>
    by_cases h : a = 0
    · simp [h]
    · by_cases h2 : 0 < a <;> simp [h, h2]
  | inf => exact Or.inr (Or.inl rfl)
  | neginf => exact Or.inr (Or.inr rfl)

theorem pdiv_nan_left (y : PVal) : pdiv .nan y = .nan := by
  cases y <;> rfl

theorem ratio_zero_shape (x : PVal) :
    pdiv (psub x (.num 0)) (.num 0) = .nan ∨
    pdiv (psub x (.num 0)) (.num 0) = .inf ∨
    pdiv (psub x (.num 0)) (.num 0) = .neginf := by
  cases x with
  | nan => exact Or.inl rfl
  | num a =>
    simp only [psub, sub_zero]
    by_cases h : a = 0
    · simp [pdiv, h]
    · by_cases h2 : 0 < a <;> simp [pdiv, h, h2]
  | inf => simp [psub, pdiv]
  | neginf => simp [psub, pdiv]

/-- C3 (amended): in percent mode, on every computation path of
`GetDelta` — the same-frequency shift-1 path, the calendar-offset path
on a datetime index, and the integer-shift fallback — a missing offset
predecessor (a NaN entry or, on the calendar path, the absence of any
entry at the offset date) yields the missing marker and `GetDelta`
raises no error; a zero predecessor likewise raises no arithmetic error
and never yields a finite number, but the entry is `inf` or `-inf` for a
nonzero numerator (0/0 or a missing numerator gives missing) — not
necessarily the missing marker. -/
theorem c3_zero_or_missing_predecessor :
    (∀ (files : String → Store) (ticker freq agg_freq fc : String)
       (n_lags : Nat) (ld : Option Date) (vc : PSeries) (p j : Nat)
       (vj vjm : PVal),
      NormalizeFreq freq = .ok fc → NormalizeFreq agg_freq = .ok fc →
      GetData files ticker fc = .ok (ld, vc) →
      lastValidPos vc.vals = some p → vc.idx.getLocAt p = .ok p →
      1 ≤ j → j ≤ p → p - n_lags ≤ j →
      vc.vals[j]? = some vj → vc.vals[j - 1]? = some vjm →
      ∃ res : List PVal, GetDelta files ticker freq agg_freq n_lags true = .ok (ld, res) ∧
        (vjm = .nan → res[j - (p - n_lags)]? = some .nan) ∧
        (vjm = .num 0 →
          res[j - (p - n_lags)]? = some (pctHelper vj (.num 0)) ∧
          (pctHelper vj (.num 0) = .nan ∨ pctHelper vj (.num 0) = .inf ∨
            pctHelper vj (.num 0) = .neginf))) ∧
    (∀ (files : String → Store) (ticker freq agg_freq fc ac : String)
       (n_lags : Nat) (ld : Option Date) (dl : List Date) (vs : List PVal)
       (p j : Nat) (off : DOffset) (dj : Date) (vj : PVal),
      NormalizeFreq freq = .ok fc → NormalizeFreq agg_freq = .ok ac →
      ¬(ac = fc) →
      GetData files ticker fc = .ok (ld, ⟨.dates dl, vs⟩) →
      lastValidPos vs = some p → PIdx.getLocAt (.dates dl) p = .ok p →
      dateOffsetFor fc ac = .ok off →
      (dl.map (applyOffset off)).Nodup →
      p - n_lags ≤ j → j ≤ p →
      dl[j]? = some dj → vs[j]? = some vj →
      ∃ res : List PVal, GetDelta files ticker freq agg_freq n_lags true = .ok (ld, res) ∧
        (∀ (k : Nat) (dk : Date), dl[k]? = some dk → applyOffset off dk = dj →
          vs[k]? = some .nan → res[j - (p - n_lags)]? = some .nan) ∧
        (∀ (k : Nat) (dk : Date), dl[k]? = some dk → applyOffset off dk = dj →
          vs[k]? = some (.num 0) →
          res[j - (p - n_lags)]? = some (pdiv (psub vj (.num 0)) (.num 0)) ∧
          (pdiv (psub vj (.num 0)) (.num 0) = .nan ∨
            pdiv (psub vj (.num 0)) (.num 0) = .inf ∨
            pdiv (psub vj (.num 0)) (.num 0) = .neginf)) ∧
        ((∀ s ∈ dl, ¬(applyOffset off s = dj)) →
          res[j - (p - n_lags)]? = some .nan)) ∧
    (∀ (files : String → Store) (ticker freq agg_freq fc ac : String)
       (n_lags : Nat) (ld : Option Date) (il : List Int) (vs : List PVal)
       (p j shift : Nat) (vj vjm : PVal),
      NormalizeFreq freq = .ok fc → NormalizeFreq agg_freq = .ok ac →
      ¬(ac = fc) →
      GetData files ticker fc = .ok (ld, ⟨.ints il, vs⟩) →
      lastValidPos vs = some p → PIdx.getLocAt (.ints il) p = .ok p →
      intShiftGet (fc, ac) = some shift →
      shift ≤ j → j ≤ p → p - n_lags ≤ j →
      vs[j]? = some vj → vs[j - shift]? = some vjm →
      ∃ res : List PVal, GetDelta files ticker freq agg_freq n_lags true = .ok (ld, res) ∧
        (vjm = .nan → res[j - (p - n_lags)]? = some .nan) ∧
        (vjm = .num 0 →
          res[j - (p - n_lags)]? = some (pctHelper vj (.num 0)) ∧
          (pctHelper vj (.num 0) = .nan ∨ pctHelper vj (.num 0) = .inf ∨
            pctHelper vj (.num 0) = .neginf))) := by
  refine ⟨?_, ?_, ?_⟩
  · intro files ticker freq agg_freq fc n_lags ld vc p j vj vjm hf ha hgd hlp
      hloc hj1 hle hstart hvj hvm
    simp only [GetDelta, hf, ha, hgd, hlp, hloc]
    rw [if_pos trivial]
    have harith : p - n_lags + (j - (p - n_lags)) = j := by omega
    refine ⟨_, rfl, ?_, ?_⟩
    · intro h
      subst h
      rw [ilocSlice_getElem?, harith, if_pos (by omega), if_pos trivial,
        pctChange_getElem?_ge hvj hvm hj1, pctHelper_nan_right]
    · intro h
      subst h
      refine ⟨?_, pctHelper_zero_shape vj⟩
      rw [ilocSlice_getElem?, harith, if_pos (by omega), if_pos trivial,
        pctChange_getElem?_ge hvj hvm hj1]
  · intro files ticker freq agg_freq fc ac n_lags ld dl vs p j off dj vj hf ha
      hne hgd hlp hloc hoff hnd hstart hjle hdj hvj
    simp only [GetDelta, hf, ha, hgd, hlp, hloc]
    rw [if_neg hne, hoff]
    simp only [shiftReindex]
    rw [if_pos hnd]
    have harith : p - n_lags + (j - (p - n_lags)) = j := by omega
    refine ⟨_, rfl, ?_, ?_, ?_⟩
    · intro k dk hdk hmatch hvk
      have hl : (dl.map (applyOffset off))[k]? = some dj := by
        rw [List.getElem?_map, hdk]
        simp [hmatch]
      have hfind := find?_zip_of_nodup hnd hl hvk
      have hprevj : (dl.map (fun t =>
          ((((dl.map (applyOffset off)).zip vs).find?
            (fun q => decide (q.1 = t))).map Prod.snd).getD .nan))[j]? =
          some .nan := by
        rw [List.getElem?_map, hdj]
        simp [hfind]
      rw [ilocSlice_getElem?, harith, if_pos (by omega)]
      simp [List.getElem?_zipWith', hvj, hprevj, psub_nan_right, pdiv_nan_left]
    · intro k dk hdk hmatch hvk
      have hl : (dl.map (applyOffset off))[k]? = some dj := by
        rw [List.getElem?_map, hdk]
        simp [hmatch]
      have hfind := find?_zip_of_nodup hnd hl hvk
      have hprevj : (dl.map (fun t =>
          ((((dl.map (applyOffset off)).zip vs).find?
            (fun q => decide (q.1 = t))).map Prod.snd).getD .nan))[j]? =
          some (.num 0) := by
        rw [List.getElem?_map, hdj]
        simp [hfind]
      refine ⟨?_, ratio_zero_shape vj⟩
      rw [ilocSlice_getElem?, harith, if_pos (by omega)]
      simp [List.getElem?_zipWith', hvj, hprevj]
    · intro hnomatch
      have hfn : (((dl.map (applyOffset off)).zip vs).find?
          (fun q => decide (q.1 = dj))) = none := by
        rw [List.find?_eq_none]
        intro q hq
        obtain ⟨a, b⟩ := q
        obtain ⟨ha2, _⟩ := List.of_mem_zip hq
        obtain ⟨s, hs, hsq⟩ := List.mem_map.mp ha2
        simp only [decide_eq_true_eq]
        rw [← hsq]
        exact hnomatch s hs
      have hprevj : (dl.map (fun t =>
          ((((dl.map (applyOffset off)).zip vs).find?
            (fun q => decide (q.1 = t))).map Prod.snd).getD .nan))[j]? =
          some .nan := by
        rw [List.getElem?_map, hdj]
        simp [hfn]
      rw [ilocSlice_getElem?, harith, if_pos (by omega)]
      simp [List.getElem?_zipWith', hvj, hprevj, psub_nan_right, pdiv_nan_left]
  · intro files ticker freq agg_freq fc ac n_lags ld il vs p j shift vj vjm hf
      ha hne hgd hlp hloc hsh hsj hle hstart hvj hvm
    simp only [GetDelta, hf, ha, hgd, hlp, hloc]
    rw [if_neg hne, hsh]
    have harith : p - n_lags + (j - (p - n_lags)) = j := by omega
    refine ⟨_, rfl, ?_, ?_⟩
    · intro h
      subst h
      rw [ilocSlice_getElem?, harith, if_pos (by omega), if_pos trivial,
        pctChange_getElem?_ge hvj hvm hsj, pctHelper_nan_right]
    · intro h
      subst h
      refine ⟨?_, pctHelper_zero_shape vj⟩
      rw [ilocSlice_getElem?, harith, if_pos (by omega), if_pos trivial,
        pctChange_getElem?_ge hvj hvm hsj]

/-- C3 witness: the amended theorem applied on all three paths — the
same-frequency series [0, 100, missing, 7] at the entry after the zero,
the calendar-offset store whose value twelve months earlier is zero, and
the integer-indexed store whose quarter-offset predecessor is zero —
plus the concrete observation that the zero-predecessor entries are
`inf`. -/
theorem c3_zero_or_missing_predecessor_witness :
    (∃ res : List PVal, GetDelta (fun _ => stZero) "T" "M" "M" 4 true =
        .ok (some ⟨2020, 4, 1⟩, res) ∧
      (PVal.num 0 = .nan → res[1 - (3 - 4)]? = some .nan) ∧
      (PVal.num 0 = .num 0 →
        res[1 - (3 - 4)]? = some (pctHelper (.num 100) (.num 0)) ∧
        (pctHelper (.num 100) (.num 0) = .nan ∨
          pctHelper (.num 100) (.num 0) = .inf ∨
          pctHelper (.num 100) (.num 0) = .neginf))) ∧
    (∃ res : List PVal, GetDelta (fun _ => stZeroA) "T" "M" "A" 4 true =
        .ok (some ⟨2021, 2, 1⟩, res) ∧
      (∀ (k : Nat) (dk : Date), ([⟨2020, 1, 1⟩, ⟨2021, 1, 1⟩] : List Date)[k]? = some dk →
        applyOffset (.months 12) dk = ⟨2021, 1, 1⟩ →
        ([PVal.num 0, .num 100] : List PVal)[k]? = some .nan →
        res[1 - (1 - 4)]? = some .nan) ∧
      (∀ (k : Nat) (dk : Date), ([⟨2020, 1, 1⟩, ⟨2021, 1, 1⟩] : List Date)[k]? = some dk →
        applyOffset (.months 12) dk = ⟨2021, 1, 1⟩ →
        ([PVal.num 0, .num 100] : List PVal)[k]? = some (.num 0) →
        res[1 - (1 - 4)]? = some (pdiv (psub (.num 100) (.num 0)) (.num 0)) ∧
        (pdiv (psub (.num 100) (.num 0)) (.num 0) = .nan ∨
          pdiv (psub (.num 100) (.num 0)) (.num 0) = .inf ∨
          pdiv (psub (.num 100) (.num 0)) (.num 0) = .neginf)) ∧
      ((∀ s ∈ ([⟨2020, 1, 1⟩, ⟨2021, 1, 1⟩] : List Date),
          ¬(applyOffset (.months 12) s = ⟨2021, 1, 1⟩)) →
        res[1 - (1 - 4)]? = some .nan)) ∧
    (∃ res : List PVal, GetDelta (fun _ => stIntZero) "T" "M" "Q" 4 true =
        .ok (none, res) ∧
      (PVal.num 0 = .nan → res[3 - (3 - 4)]? = some .nan) ∧
      (PVal.num 0 = .num 0 →
        res[3 - (3 - 4)]? = some (pctHelper (.num 7) (.num 0)) ∧
        (pctHelper (.num 7) (.num 0) = .nan ∨
          pctHelper (.num 7) (.num 0) = .inf ∨
          pctHelper (.num 7) (.num 0) = .neginf))) ∧
    pdiv (psub (.num 100) (.num 0)) (.num 0) = .inf ∧
    pctHelper (.num 7) (.num 0) = .inf := by
  refine ⟨?_, ?_, ?_, ?_, ?_⟩
  · exact c3_zero_or_missing_predecessor.1 (fun _ => stZero) "T" "M" "M" "M" 4
      (some ⟨2020, 4, 1⟩)
      ⟨.dates [⟨2020, 1, 1⟩, ⟨2020, 2, 1⟩, ⟨2020, 3, 1⟩, ⟨2020, 4, 1⟩],
       [.num 0, .num 100, .nan, .num 7]⟩ 3 1 (.num 100) (.num 0)
      (by decide) (by decide) (by decide) (by decide) (by decide)
      (by decide) (by decide) (by decide) (by decide) (by decide)
  · exact c3_zero_or_missing_predecessor.2.1 (fun _ => stZeroA) "T" "M" "A"
      "M" "A" 4 (some ⟨2021, 2, 1⟩) [⟨2020, 1, 1⟩, ⟨2021, 1, 1⟩]
      [.num 0, .num 100] 1 1 (.months 12) ⟨2021, 1, 1⟩ (.num 100)
      (by decide) (by decide) (by decide) (by decide) (by decide)
      (by decide) (by decide) (by decide) (by decide) (by decide)
      (by decide) (by decide)
  · exact c3_zero_or_missing_predecessor.2.2 (fun _ => stIntZero) "T" "M" "Q"
      "M" "Q" 4 none [0, 1, 2, 3] [.num 0, .num 2, .num 5, .num 7] 3 3 3
      (.num 7) (.num 0)
      (by decide) (by decide) (by decide) (by decide) (by decide)
      (by decide) (by decide) (by decide) (by decide) (by decide)
      (by decide) (by decide)
  · norm_num [pdiv, psub]
  · norm_num [pctHelper, pdiv, psub]

/-! ### C10: window anchoring and the all-missing column -/

/-- C10: `GetData`/`GetLevel` anchor the window at the last non-missing
entry (so the last entry of a `GetLevel` window is the most recent
non-missing value, trailing missing rows excluded), and for a column that
exists but holds no non-missing value at all, `GetData` fails — the
match on `last_valid_index` finds nothing and `index.get_loc(None)`
raises — with an error distinct from `TickerNotFound`. -/
theorem c10_getdata_anchor_and_allmissing
    (files : String → Store) (ticker freq : String) (n_lags : Nat)
    (ld : Option Date) (vc : PSeries) (p : Nat)
    (hgd : GetData files ticker freq = .ok (ld, vc))
    (hlp : lastValidPos vc.vals = some p)
    (hloc : vc.idx.getLocAt p = .ok p)
    (files2 : String → Store) (t2 f2 pc2 : String) (col : List PVal)
    (hf2 : NormalizeFreq f2 = .ok pc2)
    (hcol : lookupCol (files2 pc2).valueCols t2 = some col)
    (hall : ∀ v ∈ col, v = .nan) :
    (∃ res x, GetLevel files ticker freq n_lags = .ok (ld, res) ∧
      res.getLast? = some x ∧ x ≠ .nan) ∧
    GetData files2 t2 f2 = .error .noValidIndex ∧
    (∀ s, Err.noValidIndex ≠ Err.tickerNotFound s) := by
  refine ⟨?_, ?_, ?_⟩
  · obtain ⟨x, hx, hxn⟩ := lastValidPos_valid hlp
    refine ⟨ilocSlice vc.vals (p - n_lags) (p + 1), x, ?_, ?_, hxn⟩
    · simp only [GetLevel, hgd, hlp, hloc]
    · rw [ilocSlice_getLast? (by omega) (lastValidPos_lt hlp)]
      exact hx
  · simp only [GetData, hf2, hcol, lastValidPos_none_of_all_nan hall]
  · intro s h
    exact Err.noConfusion h

/-- C10 witness: the theorem applied to the three-month store (anchoring
part) and the all-missing store (error part). -/
theorem c10_getdata_anchor_and_allmissing_witness :
    (∃ res x, GetLevel (fun _ => stM3) "T" "M" 4 =
        .ok (some ⟨2020, 3, 15⟩, res) ∧
      res.getLast? = some x ∧ x ≠ .nan) ∧
    GetData (fun _ => stAllNan) "T" "M" = .error .noValidIndex ∧
    (∀ s, Err.noValidIndex ≠ Err.tickerNotFound s) :=
  c10_getdata_anchor_and_allmissing (fun _ => stM3) "T" "M" 4
    (some ⟨2020, 3, 15⟩)
    ⟨.dates [⟨2020, 1, 1⟩, ⟨2020, 2, 1⟩, ⟨2020, 3, 1⟩],
     [.num 100, .num 110, .num 121]⟩ 2
    (by decide) (by decide) (by decide)
    (fun _ => stAllNan) "T" "M" "M" [.nan]
    (by decide) (by decide) (by decide)

/-! ### C8: the Daily special case of the Level/Lag Extractor -/

/-- C8 (counterexample): the TemplateUpdate-GitDeploy.py `GetLevel`,
which the claim also covers, has no Daily special case: on a Daily store
with an interior missing value it returns the raw positional window
including the missing entry, instead of dropping missing values and
taking the trailing non-missing ones ([2, 4, 5] here). -/
theorem c8_counterexample :
    GetLevel (fun _ => stDgap) "T" "D" 2 =
      .ok (some ⟨2020, 1, 7⟩, [.nan, .num 4, .num 5]) ∧
    PVal.nan ∈ [PVal.nan, .num 4, .num 5] ∧
    lastN (2 + 1) (([PVal.num 1, .num 2, .nan, .num 4, .num 5].take (4 + 1)).filter
        (fun v => decide (v ≠ .nan))) = [.num 2, .num 4, .num 5] := by
  refine ⟨by decide, by decide, by decide⟩

/-- C8 (amended): only the generate_html.py `GetLevel` implements the
Daily special case: for a frequency normalizing to D it drops the missing
entries of `iloc[:last_pos+1]` and returns the trailing `n_lags + 1`
non-missing values (every returned entry is non-missing, and the window
is `min (n+1) (number of non-missing entries)` long); the
TemplateUpdate-GitDeploy.py `GetLevel` always takes the raw positional
window. -/
theorem c8_html_daily_dropna (files : String → Store) (ticker freq : String)
    (n_lags : Nat) (ld : Option Date) (vc : PSeries) (cp : Date ⊕ Int)
    (dcol : List (Option Date)) (p : Nat)
    (hgd : GetDataHtml files ticker freq = .ok (ld, vc, cp, dcol))
    (hlp : lastValidPos vc.vals = some p)
    (hloc : vc.idx.getLocAt p = .ok p)
    (hfD : NormalizeFreq freq = .ok "D") :
    GetLevelHtml files ticker freq n_lags =
      .ok (ld, lastN (n_lags + 1)
        ((vc.vals.take (p + 1)).filter (fun v => decide (v ≠ .nan))),
        cp, lastN (n_lags + 1) dcol) ∧
    (∀ v ∈ lastN (n_lags + 1)
        ((vc.vals.take (p + 1)).filter (fun v => decide (v ≠ .nan))),
      v ≠ .nan) ∧
    (lastN (n_lags + 1)
        ((vc.vals.take (p + 1)).filter (fun v => decide (v ≠ .nan)))).length =
      min (n_lags + 1)
        ((vc.vals.take (p + 1)).filter (fun v => decide (v ≠ .nan))).length := by
  refine ⟨?_, ?_, ?_⟩
  · simp only [GetLevelHtml, hgd, hlp, hloc, hfD]
    rw [if_pos trivial]
  · intro v hv
    simp only [lastN] at hv
    have hv2 := List.mem_of_mem_drop hv
    have := (List.mem_filter.mp hv2).2
    simpa using this
  · simp only [lastN, List.length_drop]
    omega

/-- C8 witness: the amended theorem applied to the gapped Daily store:
the returned window is [2, 4, 5], skipping the missing entry. -/
theorem c8_html_daily_dropna_witness :
    GetLevelHtml (fun _ => stDgap) "T" "D" 2 =
      .ok (some ⟨2020, 1, 7⟩, lastN (2 + 1)
        (([PVal.num 1, .num 2, .nan, .num 4, .num 5].take (4 + 1)).filter
          (fun v => decide (v ≠ .nan))),
        Sum.inl ⟨2020, 1, 7⟩,
        lastN (2 + 1) [some ⟨2020, 1, 1⟩, some ⟨2020, 1, 2⟩, none,
          some ⟨2020, 1, 6⟩, some ⟨2020, 1, 7⟩]) ∧
    (∀ v ∈ lastN (2 + 1)
        (([PVal.num 1, .num 2, .nan, .num 4, .num 5].take (4 + 1)).filter
          (fun v => decide (v ≠ .nan))), v ≠ .nan) ∧
    (lastN (2 + 1)
        (([PVal.num 1, .num 2, .nan, .num 4, .num 5].take (4 + 1)).filter
          (fun v => decide (v ≠ .nan)))).length =
      min (2 + 1)
        (([PVal.num 1, .num 2, .nan, .num 4, .num 5].take (4 + 1)).filter
          (fun v => decide (v ≠ .nan))).length :=
  c8_html_daily_dropna (fun _ => stDgap) "T" "D" 2 (some ⟨2020, 1, 7⟩)
    ⟨.dates [⟨2020, 1, 1⟩, ⟨2020, 1, 2⟩, ⟨2020, 1, 3⟩, ⟨2020, 1, 6⟩,
             ⟨2020, 1, 7⟩],
     [.num 1, .num 2, .nan, .num 4, .num 5]⟩
    (.inl ⟨2020, 1, 7⟩)
    [some ⟨2020, 1, 1⟩, some ⟨2020, 1, 2⟩, none, some ⟨2020, 1, 6⟩,
     some ⟨2020, 1, 7⟩] 4
    (by decide) (by decide) (by decide) (by decide)

/-! ### C6: calendar-offset matching of the Delta Engine -/

/-- C6: for a calendar-bearing index and distinct native/aggregation
frequencies, `GetDelta` matches each period with the period whose date
plus the configured calendar offset (M to A: 12 months, M to Q: 3 months,
Q to A: 12 months, W to A: 52 weeks, D to A: 1 year, per
`dateOffsetFor`) equals its date — whatever the two row positions are —
and the delta is the difference (or percent change) of the two matched
values. -/
theorem c6_calendar_offset_delta (files : String → Store)
    (ticker freq agg_freq fc ac : String) (n_lags : Nat) (pct : Bool)
    (ld : Option Date) (dl : List Date) (vs : List PVal)
    (p j k : Nat) (off : DOffset) (dj dk : Date) (vj vk : PVal)
    (hf : NormalizeFreq freq = .ok fc) (ha : NormalizeFreq agg_freq = .ok ac)
    (hne : ¬(ac = fc))
    (hgd : GetData files ticker fc = .ok (ld, ⟨.dates dl, vs⟩))
    (hlp : lastValidPos vs = some p)
    (hloc : PIdx.getLocAt (.dates dl) p = .ok p)
    (hoff : dateOffsetFor fc ac = .ok off)
    (hnd : (dl.map (applyOffset off)).Nodup)
    (hstart : p - n_lags ≤ j) (hjle : j ≤ p)
    (hdj : dl[j]? = some dj) (hdk : dl[k]? = some dk)
    (hmatch : applyOffset off dk = dj)
    (hvj : vs[j]? = some vj) (hvk : vs[k]? = some vk) :
    ∃ res, GetDelta files ticker freq agg_freq n_lags pct = .ok (ld, res) ∧
      res[j - (p - n_lags)]? =
        some (if pct then pdiv (psub vj vk) vk else psub vj vk) := by
  simp only [GetDelta, hf, ha, hgd, hlp, hloc]
  rw [if_neg hne, hoff]
  simp only [shiftReindex]
  rw [if_pos hnd]
  refine ⟨_, rfl, ?_⟩
  have harith : p - n_lags + (j - (p - n_lags)) = j := by omega
  have hl : (dl.map (applyOffset off))[k]? = some dj := by
    rw [List.getElem?_map, hdk]
    simp [hmatch]
  have hfind := find?_zip_of_nodup hnd hl hvk
  have hprevj : (dl.map (fun t =>
      ((((dl.map (applyOffset off)).zip vs).find?
        (fun q => decide (q.1 = t))).map Prod.snd).getD .nan))[j]? = some vk := by
    rw [List.getElem?_map, hdj]
    simp [hfind]
  rw [ilocSlice_getElem?, harith, if_pos (by omega)]
  cases pct with
  | true => simp [List.getElem?_zipWith', hvj, hprevj]
  | false => simp [List.getElem?_zipWith', hvj, hprevj]

/-- C6 witness: thirteen consecutive monthly values 100..112 aggregated
to Annual in level mode: the 13th entry is matched with the value twelve
calendar months earlier, and its delta is 112 - 100 = 12. -/
theorem c6_calendar_offset_delta_witness :
    (∃ res, GetDelta (fun _ => st13) "T" "M" "A" 12 false =
        .ok (some ⟨2021, 1, 10⟩, res) ∧
      res[12 - (12 - 12)]? =
        some (if false then pdiv (psub (.num 112) (.num 100)) (.num 100)
          else psub (.num 112) (.num 100))) ∧
    psub (.num 112) (.num 100) = .num 12 :=
  ⟨c6_calendar_offset_delta (fun _ => st13) "T" "M" "A" "M" "A" 12 false
      (some ⟨2021, 1, 10⟩) dl13 vals13 12 12 0 (.months 12)
      ⟨2021, 1, 1⟩ ⟨2020, 1, 1⟩ (.num 112) (.num 100)
      (by decide) (by decide) (by decide) (by decide) (by decide)
      (by decide) (by decide) (by decide) (by decide) (by decide)
      (by decide) (by decide) (by decide) (by decide) (by decide),
   by norm_num [psub]⟩

/-! ### C9: the two Fetch tables share one period index -/

theorem map_fst_pair {α β γ : Type} (l : List (α × β)) (g : α × β → γ) :
    (l.map (fun e => (e.1, g e))).map Prod.fst = l.map Prod.fst := by
  induction l with
  | nil => rfl
  | cons a t ih => simp [ih]

theorem map12_fst_eq (D : List (String × List (Date × (PVal × Option Date)))) :
    ((D.map (fun e => (e.1, e.2.map (fun q => (q.1, q.2.1))))).map
      (fun e => e.2.map Prod.fst))
    = ((D.map (fun e => (e.1, e.2.map (fun q => (q.1, q.2.2))))).map
      (fun e => e.2.map Prod.fst)) := by
  induction D with
  | nil => rfl
  | cons a t ih =>
    simp only [List.map_cons, List.cons.injEq]
    exact ⟨by rw [map_fst_pair, map_fst_pair], ih⟩

/-- C9: whenever `Fetch` succeeds, the values table and the dates table
it returns share exactly the same period index (same rows in the same
order), and also list the same tickers in the same order. -/
theorem c9_fetch_shared_index (ticker_list warning_list : List String)
    (fredAllReleases : String → Option (List Obs))
    (fredGetSeries : String → Option (List (Date × PVal)))
    (freq : String) (r : FetchResult)
    (h : Fetch ticker_list fredAllReleases fredGetSeries freq warning_list =
      .ok r) :
    r.valuesIndex = r.datesIndex ∧
    r.values.map Prod.fst = r.dates.map Prod.fst := by
  simp only [Fetch] at h
  split at h
  · exact absurd h (by simp)
  · split at h
    · injection h with h2
      subst h2
      exact ⟨rfl, rfl⟩
    · injection h with h2
      subst h2
      refine ⟨?_, ?_⟩
      · dsimp only
        rw [map12_fst_eq]
      · dsimp only
        rw [map_fst_pair, map_fst_pair, map_fst_pair, map_fst_pair]

/-- Two-observation source series used by the C9 witness. -/
def obsW : List Obs :=
  [⟨⟨2020, 1, 5⟩, ⟨2020, 2, 1⟩, .num 1⟩, ⟨⟨2020, 2, 7⟩, ⟨2020, 3, 1⟩, .num 2⟩]

/-- C9 witness: the theorem applied to a concrete one-ticker fetch. -/
theorem c9_fetch_shared_index_witness :
    (⟨[⟨2020, 1, 1⟩, ⟨2020, 2, 1⟩], [("T", [.num 1, .num 2])],
      [⟨2020, 1, 1⟩, ⟨2020, 2, 1⟩],
      [("T", [some ⟨2020, 2, 1⟩, some ⟨2020, 3, 1⟩])]⟩ : FetchResult).valuesIndex =
      (⟨[⟨2020, 1, 1⟩, ⟨2020, 2, 1⟩], [("T", [.num 1, .num 2])],
        [⟨2020, 1, 1⟩, ⟨2020, 2, 1⟩],
        [("T", [some ⟨2020, 2, 1⟩, some ⟨2020, 3, 1⟩])]⟩ : FetchResult).datesIndex ∧
    (⟨[⟨2020, 1, 1⟩, ⟨2020, 2, 1⟩], [("T", [.num 1, .num 2])],
      [⟨2020, 1, 1⟩, ⟨2020, 2, 1⟩],
      [("T", [some ⟨2020, 2, 1⟩, some ⟨2020, 3, 1⟩])]⟩ : FetchResult).values.map
        Prod.fst =
      (⟨[⟨2020, 1, 1⟩, ⟨2020, 2, 1⟩], [("T", [.num 1, .num 2])],
        [⟨2020, 1, 1⟩, ⟨2020, 2, 1⟩],
        [("T", [some ⟨2020, 2, 1⟩, some ⟨2020, 3, 1⟩])]⟩ : FetchResult).dates.map
        Prod.fst :=
  c9_fetch_shared_index ["T"] [] (fun _ => some obsW) (fun _ => none) "M" _
    (by decide)

/-! ### C1: vintage selection of the Period Aligner -/

theorem map_fst_key {α β : Type} (keys : List α) (f : α → β) :
    (keys.map (fun x => (x, f x))).map Prod.fst = keys := by
  induction keys with
  | nil => rfl
  | cons a t ih => simp [ih]

theorem mem_groupKeys_of_filter (pc : String) (obs : List Obs) (k : Date)
    (ch : Obs)
    (hch : (obs.filter (fun o => decide (floorPeriod pc o.date = k))).getLast?
      = some ch) :
    k ∈ groupKeys (vintageRows pc obs) := by
  have hchmem := List.mem_of_getLast?_eq_some hch
  have hkch : floorPeriod pc ch.date = k := by
    simpa using (List.mem_filter.mp hchmem).2
  have hchobs : ch ∈ obs := (List.mem_filter.mp hchmem).1
  rw [groupKeys, mem_sortDedup, vintageRows, List.map_map]
  exact hkch ▸ List.mem_map_of_mem _ hchobs

/-- The aggregated value of one vintage group: GroupBy "last" on the
value column keeps the last observation of the group whose value is
non-NaN. -/
theorem lastInGroup_vintage_value (pc : String) (obs : List Obs) (k : Date)
    (chv : Obs)
    (hchv : ((obs.filter (fun o => decide (floorPeriod pc o.date = k))).filter
        (fun o => decide (o.value ≠ .nan))).getLast? = some chv) :
    (lastInGroup (vintageRows pc obs) k).1 = chv.value := by
  have hcol : ((((vintageRows pc obs).filter
      (fun r => decide (r.1 = k))).map Prod.snd).map Prod.fst) =
      (obs.filter (fun o => decide (floorPeriod pc o.date = k))).map
        Obs.value := by
    rw [vintageRows, List.filter_map, List.map_map, List.map_map]
    rfl
  show lastNonNullVal ((((vintageRows pc obs).filter
      (fun r => decide (r.1 = k))).map Prod.snd).map Prod.fst) = chv.value
  rw [hcol]
  simp only [lastNonNullVal]
  rw [List.filter_map]
  have hpred : ((obs.filter
      (fun o => decide (floorPeriod pc o.date = k))).filter
      ((fun v => decide (v ≠ PVal.nan)) ∘ Obs.value)) =
      ((obs.filter (fun o => decide (floorPeriod pc o.date = k))).filter
        (fun o => decide (o.value ≠ PVal.nan))) := rfl
  rw [hpred, List.getLast?_map, hchv]
  rfl

/-- The aggregated release timestamp of one vintage group: on the
vintage path the `realtime_start` column has no NaT, so GroupBy "last"
keeps the timestamp of the positionally last observation of the group,
regardless of where the aggregated value came from. -/
theorem lastInGroup_vintage_date (pc : String) (obs : List Obs) (k : Date)
    (ch : Obs)
    (hch : (obs.filter (fun o => decide (floorPeriod pc o.date = k))).getLast?
      = some ch) :
    (lastInGroup (vintageRows pc obs) k).2 = some ch.realtime_start := by
  have hcol : ((((vintageRows pc obs).filter
      (fun r => decide (r.1 = k))).map Prod.snd).map Prod.snd) =
      (obs.filter (fun o => decide (floorPeriod pc o.date = k))).map
        (fun o => some o.realtime_start) := by
    rw [vintageRows, List.filter_map, List.map_map, List.map_map]
    rfl
  show lastNonNullDate ((((vintageRows pc obs).filter
      (fun r => decide (r.1 = k))).map Prod.snd).map Prod.snd) =
    some ch.realtime_start
  rw [hcol]
  simp only [lastNonNullDate]
  have hall : (((obs.filter
      (fun o => decide (floorPeriod pc o.date = k))).map
      (fun o => some o.realtime_start)).filter
        (fun d => decide (d ≠ none))) =
      ((obs.filter (fun o => decide (floorPeriod pc o.date = k))).map
        (fun o => some o.realtime_start)) := by
    rw [List.filter_eq_self]
    intro a ha
    obtain ⟨o, ho, hoa⟩ := List.mem_map.mp ha
    rw [← hoa]
    simp
  rw [hall, List.getLast?_map, hch]
  rfl

/-- The cell the grouped VALUES column of one ticker holds at period
`k`. -/
theorem groupLast_value_at (pc : String) (obs : List Obs) (k : Date)
    (chv : Obs)
    (hmem : k ∈ groupKeys (vintageRows pc obs))
    (hchv : ((obs.filter (fun o => decide (floorPeriod pc o.date = k))).filter
        (fun o => decide (o.value ≠ .nan))).getLast? = some chv) :
    (((((groupLast (vintageRows pc obs)).map
        (fun q => (q.1, q.2.1))).find?
      (fun q => decide (q.1 = k))).map Prod.snd).getD .nan) = chv.value := by
  rw [groupLast, List.map_map]
  have hcomp : ((fun q => (q.1, q.2.1)) ∘
      (fun kk => (kk, lastInGroup (vintageRows pc obs) kk))) =
      (fun kk => (kk, (lastInGroup (vintageRows pc obs) kk).1)) := rfl
  rw [hcomp, find?_map_key _ hmem, Option.getD_some]
  exact lastInGroup_vintage_value pc obs k chv hchv

/-- The cell the grouped DATES column of one ticker holds at period
`k`. -/
theorem groupLast_date_at (pc : String) (obs : List Obs) (k : Date)
    (ch : Obs)
    (hmem : k ∈ groupKeys (vintageRows pc obs))
    (hch : (obs.filter (fun o => decide (floorPeriod pc o.date = k))).getLast?
      = some ch) :
    (((((groupLast (vintageRows pc obs)).map
        (fun q => (q.1, q.2.2))).find?
      (fun q => decide (q.1 = k))).map Prod.snd).getD none) =
      some ch.realtime_start := by
  rw [groupLast, List.map_map]
  have hcomp : ((fun q => (q.1, q.2.2)) ∘
      (fun kk => (kk, lastInGroup (vintageRows pc obs) kk))) =
      (fun kk => (kk, (lastInGroup (vintageRows pc obs) kk).2)) := rfl
  rw [hcomp, find?_map_key _ hmem, Option.getD_some]
  exact lastInGroup_vintage_date pc obs k ch hch

/-- C1 (amended): for every vintage-path ticker,
`groupby("Time").agg({"value": "last", "realtime_start": "last"})` is
per-column last-non-null selection: the value `Fetch` emits for a period
is the value of the LAST observation in input order whose value is
non-missing within that period's group, while the stored release
timestamp is the `realtime_start` of the positionally last observation of
the group outright (its timestamps are never missing) — the two can come
from different observations, and neither is, in general, the observation
with the maximal release timestamp.  When the group arrives sorted
ascending by `realtime_start` (as the FRED client returns it), the last
observation does carry the maximal release timestamp. -/
theorem c1_fetch_last_in_group (ticker_list warning_list : List String)
    (fredAllReleases : String → Option (List Obs))
    (fredGetSeries : String → Option (List (Date × PVal)))
    (freq pc t : String) (obs : List Obs) (k : Date) (ch chv : Obs)
    (r : FetchResult)
    (hpc : periodCodeOf freq = .ok pc)
    (hnd : ticker_list.Nodup)
    (ht : t ∈ ticker_list) (htw : t ∉ warning_list)
    (hobs : fredAllReleases t = some obs)
    (hch : (obs.filter (fun o => decide (floorPeriod pc o.date = k))).getLast?
      = some ch)
    (hchv : ((obs.filter (fun o => decide (floorPeriod pc o.date = k))).filter
        (fun o => decide (o.value ≠ .nan))).getLast? = some chv)
    (h : Fetch ticker_list fredAllReleases fredGetSeries freq warning_list =
      .ok r) :
    r.valueAt t k = some chv.value ∧
    r.dateAt t k = some (some ch.realtime_start) ∧
    ((obs.filter (fun o => decide (floorPeriod pc o.date = k))).Pairwise
        (fun a b => dateKey a.realtime_start ≤ dateKey b.realtime_start) →
      ∀ o ∈ obs.filter (fun o => decide (floorPeriod pc o.date = k)),
        dateKey o.realtime_start ≤ dateKey ch.realtime_start) := by
  have hkk := mem_groupKeys_of_filter pc obs k ch hch
  have hmax : (obs.filter (fun o => decide (floorPeriod pc o.date = k))).Pairwise
      (fun a b => dateKey a.realtime_start ≤ dateKey b.realtime_start) →
      ∀ o ∈ obs.filter (fun o => decide (floorPeriod pc o.date = k)),
        dateKey o.realtime_start ≤ dateKey ch.realtime_start := by
    intro hp o ho
    rcases getLast?_rel_of_pairwise hp hch o ho with he | hle
    · rw [he]
    · exact hle
  simp only [Fetch, hpc] at h
  have hF : ∀ (x : String) (y : String × List (Date × (PVal × Option Date))),
      (fredAllReleases x).map
        (fun obs2 => (x, groupLast (vintageRows pc obs2))) =
        some y → y.1 = x := by
    intro x y hxy
    cases hfa : fredAllReleases x with
    | none =>
      rw [hfa] at hxy
      exact absurd hxy (by simp)
    | some o2 =>
      rw [hfa] at hxy
      rw [Option.map_some'] at hxy
      injection hxy with h3
      rw [← h3]
  have htf : t ∈ ticker_list.filter (fun x => decide (x ∉ warning_list)) :=
    List.mem_filter.mpr ⟨ht, by simpa using htw⟩
  have hFt : (fredAllReleases t).map
      (fun obs2 => (t, groupLast (vintageRows pc obs2))) =
      some (t, groupLast (vintageRows pc obs)) := by
    rw [hobs]
    rfl
  have hfind1 := find?_fst_filterMap hF (hnd.filter _) htf hFt
  have hmem1 : (t, groupLast (vintageRows pc obs)) ∈
      (ticker_list.filter (fun x => decide (x ∉ warning_list))).filterMap
        (fun x => (fredAllReleases x).map
          (fun obs2 => (x, groupLast (vintageRows pc obs2)))) :=
    List.mem_filterMap.mpr ⟨t, htf, hFt⟩
  have hfindD : (((ticker_list.filter (fun x => decide (x ∉ warning_list))).filterMap
      (fun x => (fredAllReleases x).map
        (fun obs2 => (x, groupLast (vintageRows pc obs2)))) ++
      warning_list.filterMap (fun x => (fredGetSeries x).map
        (fun s => (x, groupLast (simpleRows pc s))))).find?
        (fun e => decide (e.1 = t))) =
      some (t, groupLast (vintageRows pc obs)) := by
    rw [List.find?_append, hfind1]
    rfl
  have hkcol : k ∈ ((groupLast (vintageRows pc obs)).map
        (fun p => (p.1, p.2.1))).map Prod.fst := by
    rw [map_fst_pair, groupLast, map_fst_key]
    exact hkk
  have hkcol2 : k ∈ ((groupLast (vintageRows pc obs)).map
        (fun p => (p.1, p.2.2))).map Prod.fst := by
    rw [map_fst_pair, groupLast, map_fst_key]
    exact hkk
  split at h
  · exfalso
    rename_i hemp
    rw [List.isEmpty_iff] at hemp
    have hm : ((fun e => (e.1, e.2.map (fun p => (p.1, p.2.1))))
        (t, groupLast (vintageRows pc obs))) ∈
        ((ticker_list.filter (fun x => decide (x ∉ warning_list))).filterMap
          (fun x => (fredAllReleases x).map
            (fun obs2 => (x, groupLast (vintageRows pc obs2)))) ++
          warning_list.filterMap (fun x => (fredGetSeries x).map
            (fun s => (x, groupLast (simpleRows pc s))))).map
          (fun e => (e.1, e.2.map (fun p => (p.1, p.2.1)))) :=
      List.mem_map_of_mem _ (List.mem_append_left _ hmem1)
    rw [hemp] at hm
    exact absurd hm (List.not_mem_nil _)
  · injection h with h2
    subst h2
    refine ⟨?_, ?_, hmax⟩
    · simp only [FetchResult.valueAt, lookupCol]
      rw [find?_map_fst, find?_map_fst, hfindD]
      simp only [Option.map_some', Option.some_bind]
      rw [find?_zip_map_self _ (by
        rw [mem_sortDedup]
        exact List.mem_flatten.mpr ⟨_, List.mem_map_of_mem _
          (List.mem_map_of_mem _ (List.mem_append_left _ hmem1)), hkcol⟩)]
      exact congrArg some (groupLast_value_at pc obs k chv hkk hchv)
    · simp only [FetchResult.dateAt, lookupCol]
      rw [find?_map_fst, find?_map_fst, hfindD]
      simp only [Option.map_some', Option.some_bind]
      rw [find?_zip_map_self _ (by
        rw [mem_sortDedup]
        exact List.mem_flatten.mpr ⟨_, List.mem_map_of_mem _
          (List.mem_map_of_mem _ (List.mem_append_left _ hmem1)), hkcol2⟩)]
      exact congrArg some (groupLast_date_at pc obs k ch hkk hch)

/-- Two vintages of the same January period arriving with the LATER
release first (release 2020-02-10 carrying value 2, then release
2020-02-01 carrying value 1). -/
def obsC1 : List Obs :=
  [⟨⟨2020, 1, 5⟩, ⟨2020, 2, 10⟩, .num 2⟩,
   ⟨⟨2020, 1, 20⟩, ⟨2020, 2, 1⟩, .num 1⟩]

/-- C1 (counterexample): on the out-of-order vintage input `obsC1`,
`Fetch` emits value 1 with release timestamp 2020-02-01 (both columns are
non-null, so "last" keeps the last row in input order), although the
observation with the maximal `release_timestamp` (2020-02-10) carries
value 2: the selection is `groupby(...).agg("last")`, which depends on
input order, not a maximal-release comparison. -/
theorem c1_fetch_counterexample :
    Fetch ["T"] (fun _ => some obsC1) (fun _ => none) "M" [] =
      .ok ⟨[⟨2020, 1, 1⟩], [("T", [.num 1])], [⟨2020, 1, 1⟩],
           [("T", [some ⟨2020, 2, 1⟩])]⟩ ∧
    (latestByRelease obsC1).map Obs.value = some (.num 2) ∧
    (latestByRelease obsC1).map Obs.realtime_start = some ⟨2020, 2, 10⟩ ∧
    PVal.num 1 ≠ PVal.num 2 := by
  refine ⟨by decide, by decide, by decide, by decide⟩

/-- Two vintages in ascending release order whose final vintage value is
missing: "last" takes the value from the first row but the release
timestamp from the second. -/
def obsC1w : List Obs :=
  [⟨⟨2020, 1, 5⟩, ⟨2020, 2, 1⟩, .num 1⟩,
   ⟨⟨2020, 1, 20⟩, ⟨2020, 2, 10⟩, .nan⟩]

/-- C1 witness: the amended theorem applied to an ascending-release
group whose last row has a NaN value — the emitted value 1 comes from
the first observation (last non-null value) while the emitted release
timestamp 2020-02-10 comes from the second (positionally last)
observation, which also carries the maximal release timestamp. -/
theorem c1_fetch_last_in_group_witness :
    FetchResult.valueAt ⟨[⟨2020, 1, 1⟩], [("T", [.num 1])], [⟨2020, 1, 1⟩],
        [("T", [some ⟨2020, 2, 10⟩])]⟩ "T" ⟨2020, 1, 1⟩ =
      some (PVal.num 1) ∧
    FetchResult.dateAt ⟨[⟨2020, 1, 1⟩], [("T", [.num 1])], [⟨2020, 1, 1⟩],
        [("T", [some ⟨2020, 2, 10⟩])]⟩ "T" ⟨2020, 1, 1⟩ =
      some (some ⟨2020, 2, 10⟩) ∧
    ((obsC1w.filter (fun o => decide (floorPeriod "M" o.date = ⟨2020, 1, 1⟩))).Pairwise
        (fun a b => dateKey a.realtime_start ≤ dateKey b.realtime_start) →
      ∀ o ∈ obsC1w.filter (fun o => decide (floorPeriod "M" o.date = ⟨2020, 1, 1⟩)),
        dateKey o.realtime_start ≤
          dateKey (⟨⟨2020, 1, 20⟩, ⟨2020, 2, 10⟩, .nan⟩ : Obs).realtime_start) :=
  c1_fetch_last_in_group ["T"] [] (fun _ => some obsC1w) (fun _ => none)
    "M" "M" "T" obsC1w ⟨2020, 1, 1⟩ ⟨⟨2020, 1, 20⟩, ⟨2020, 2, 10⟩, .nan⟩
    ⟨⟨2020, 1, 5⟩, ⟨2020, 2, 1⟩, .num 1⟩
    ⟨[⟨2020, 1, 1⟩], [("T", [.num 1])], [⟨2020, 1, 1⟩],
     [("T", [some ⟨2020, 2, 10⟩])]⟩
    (by decide) (by decide) (by decide) (by decide) (by decide) (by decide)
    (by decide) (by decide)
